import Mathlib

/-!
# Policy-pack installation and publication of the pulumi backends

A shallow embedding of `pkg/backend/pulumi/policypack.go`,
`pkg/backend/cli/policypack.go` and `ParseStackIdentifier` of `pkg/backend/client.go`.

* Go `error` values are the type `Error`; `nil` is `none : Option Error`.
* A cleaned absolute path is the list of its components (`Path`); the root is `[]`.
* The filesystem is a map from paths to nodes (`FS`); the functions
  of the Go standard library and of the sdk packages that the two files call are
  modelled by their effect on a `World` (filesystem plus the log of external
  calls made so far). Whether such a call fails, and what it returns when the
  answer comes from outside (a random suffix, a downloaded archive, a parsed
  manifest), is read from an `Env`, so that a theorem quantified over `Env`
  covers every combination of failures.
* Output written with `fmt.Printf`, `fmt.Println` and the logger is not modelled.
-/

namespace Go

/-! ## Errors -/

/-- Go `error` values. `sys` is an error returned by the operating system or by a
collaborator, `alreadyExists` telling whether it is an already-exists error;
`wrap` is what `errors.Wrap` and `errors.Wrapf` build; `errorf` is what
`errors.Errorf` and `fmt.Errorf` build. -/
inductive Error where
  | sys (msg : String) (alreadyExists : Bool)
  | wrap (cause : Error) (msg : String)
  | errorf (msg : String)
deriving DecidableEq, Repr

/-- `os.IsExist`: true of an already-exists error of the operating system. It is
false of `nil` and does not look through `errors.Wrap`. -/
def os.IsExist : Option Error → Bool
  | some (.sys _ alreadyExists) => alreadyExists
  | _ => false

/-- `errors.Wrap(err, msg)` for a non-nil `err`. -/
def errors.Wrap (err : Error) (msg : String) : Error := .wrap err msg

/-! ## Strings -/

/-- Representative of the simple case-folding orbit of a character, for the orbits
that contain an ASCII letter: upper-case ASCII letters fold to lower case, and the
two non-ASCII members of such orbits, U+017F (long s) and U+212A (Kelvin sign),
fold to `s` and `k`. Other characters are left alone, so `strings.EqualFold` below
is exact whenever one of its arguments is ASCII. -/
def foldChar (c : Char) : Char :=
  if c.val = 0x17F then 's'
  else if c.val = 0x212A then 'k'
  else c.toLower

/-- `strings.EqualFold(s, t)`: equality under Unicode simple case folding. -/
def strings.EqualFold (s t : String) : Bool :=
  s.data.map foldChar == t.data.map foldChar

/-- Body of `strings.Replace(s, old, new, -1)` for a non-empty `old`, on character
lists: scanning from the left, each occurrence of `old` is replaced by `new` and the
scan resumes after it. `fuel` bounds the number of steps; the length of the input
plus one is enough. -/
def replaceAllAux (old new : List Char) : Nat → List Char → List Char
  | 0, s => s
  | _ + 1, [] => []
  | fuel + 1, c :: cs =>
    if old <+: c :: cs then new ++ replaceAllAux old new fuel ((c :: cs).drop old.length)
    else c :: replaceAllAux old new fuel cs

/-- `strings.Replace(s, old, new, -1)`: every non-overlapping occurrence of `old` in
`s` replaced by `new`. For an empty `old`, Go inserts `new` before every character
and at the end. -/
def strings.Replace (s old new : String) : String :=
  if old = new then s
  else if old.data = [] then ⟨new.data ++ s.data.flatMap (fun c => c :: new.data)⟩
  else ⟨replaceAllAux old.data new.data (s.data.length + 1) s.data⟩

/-- `strings.Contains(s, substr)`. -/
def strings.Contains (s substr : String) : Prop := substr.data <:+: s.data

/-- Splitting of a character list at every occurrence of `sep`; the result has one
more element than `sep` has occurrences. -/
def splitChars (sep : Char) : List Char → List (List Char)
  | [] => [[]]
  | c :: cs =>
    if c = sep then [] :: splitChars sep cs
    else
      match splitChars sep cs with
      | [] => [[c]]
      | part :: parts => (c :: part) :: parts

/-- `strings.Split(s, "/")`. -/
def strings.SplitSlash (s : String) : List String :=
  (splitChars '/' s.data).map String.mk

/-- `strings.Count(s, "/")`. -/
def strings.CountSlash (s : String) : Nat := s.data.count '/'

/-- `strconv.Itoa`: the decimal rendering of an integer. -/
def strconv.Itoa (n : Int) : String := toString n

/-! ## Paths and the filesystem -/

/-- A cleaned absolute path, as the list of its components. -/
abbrev Path := List String

/-- `filepath.Dir` on a cleaned absolute path; the root is its own parent. -/
def filepath.Dir (p : Path) : Path := p.dropLast

/-- `filepath.Base` on a cleaned absolute path; the base of the root is the
separator. -/
def filepath.Base (p : Path) : String := p.getLast?.getD "/"

/-- `filepath.Join(dir, name)` for a single component `name`. -/
def filepath.Join (dir : Path) (name : String) : Path := dir ++ [name]

/-- Rendering of a path in messages. -/
def Path.render (p : Path) : String := "/" ++ "/".intercalate p

end Go

open Go

/-! ## The manifest -/

namespace workspace

/-- Modelled from the spec: `workspace.ProjectRuntimeInfo` is declared in the sdk,
outside the files at hand. The manifest records a runtime name and a runtime-option
map (key to value). -/
structure ProjectRuntimeInfo where
  name : String
  options : List (String × String)
deriving DecidableEq, Repr

/-- Modelled from the spec: `ProjectRuntimeInfo.Name`. -/
def ProjectRuntimeInfo.Name (info : ProjectRuntimeInfo) : String := info.name

/-- Modelled from the spec: `ProjectRuntimeInfo.SetOption(key, value)` adds the
option or overwrites its value. -/
def ProjectRuntimeInfo.SetOption (info : ProjectRuntimeInfo) (key value : String) :
    ProjectRuntimeInfo :=
  { info with options := (key, value) :: info.options.filter (fun kv => kv.1 ≠ key) }

/-- Value of a runtime option, if set. -/
def ProjectRuntimeInfo.option? (info : ProjectRuntimeInfo) (key : String) : Option String :=
  info.options.lookup key

/-- Modelled from the spec: `workspace.PolicyPackProject`, the manifest
`{name, runtime name, runtime options}` of a policy pack. -/
structure PolicyPackProject where
  Name : String
  Runtime : ProjectRuntimeInfo
deriving DecidableEq, Repr

end workspace

open workspace

/-! ## The world -/

/-- What a path of the filesystem holds. -/
inductive Node where
  | dir
  | manifest (proj : PolicyPackProject)
  | data (bytes : List Nat)
deriving DecidableEq, Repr

/-- The filesystem: what each path holds, `none` where nothing exists. -/
abbrev FS := Path → Option Node

/-- One entry of an archive: a path relative to the extraction directory and what
it holds. -/
structure TarEntry where
  name : List String
  node : Node
deriving DecidableEq, Repr

/-- The bytes of a gzip-compressed tarball, represented by the entries they decode
to. -/
abbrev Tarball := List TarEntry

/-- External calls, as recorded in the log of the world. -/
inductive Call where
  | getPolicyPath (orgName name version : String)
  | downloadPolicyPack (location : String)
  | mkdirAll (p : Path)
  | tempDir (dir : Path) (pattern : String)
  | unTGZ (tarball : Tarball) (dir : Path)
  | rename (oldpath newpath : Path)
  | removeAll (p : Path)
  | loadPolicyPack (p : Path)
  | npmInstall (dir : Path)
  | pythonInstallDependencies (dir : Path) (venvDir : String)
  | save (p : Path) (proj : PolicyPackProject)
deriving DecidableEq, Repr

/-- The state the installer acts on: the filesystem and the external calls made so
far, oldest first. -/
structure World where
  fs : FS
  log : List Call

/-- The world after one more external call. -/
def World.call (w : World) (c : Call) : World := { w with log := w.log ++ [c] }

/-- The collaborators of the installer: for each external call of one install, whether
it fails and what it returns when that is decided outside the filesystem model. -/
structure Env where
  /-- The value of the constant `tokens.QNameDelimiter`. -/
  QNameDelimiter : String
  /-- The derived install path of (organization, normalized name, version). -/
  policyPath : String → String → String → Path
  /-- Failure of `workspace.GetPolicyPath`. -/
  getPolicyPath : Option Error
  /-- Result of `client.DownloadPolicyPack`. -/
  downloadPolicyPack : Except Error Tarball
  /-- Failure of `os.MkdirAll` on the parent of the final directory, after the given
  number of leading components have been created. -/
  mkdirAllRoot : Option (Nat × Error)
  /-- Failure of `ioutil.TempDir`, or the random suffix it picks. -/
  tempDir : Except Error String
  /-- Failure of `os.MkdirAll` on the `package` folder of the staging directory. -/
  mkdirAllPackage : Option (Nat × Error)
  /-- Failure of `archive.UnTGZ`, after the given number of entries have been
  written. -/
  unTGZ : Option (Nat × Error)
  /-- Failure of `os.Rename`; an already-exists error here is a lost race. -/
  rename : Option Error
  /-- Failure of `os.RemoveAll`. -/
  removeAll : Option Error
  /-- Result of `workspace.LoadPolicyPack`. -/
  loadPolicyPack : Except Error PolicyPackProject
  /-- Result `(bin, err)` of `npm.Install`. -/
  npmInstall : String × Option Error
  /-- Failure of `python.InstallDependencies`. -/
  pythonInstallDependencies : Option Error
  /-- Failure of `PolicyPackProject.Save`. -/
  save : Option Error

/-! ## Effects of the external calls on the filesystem -/

/-- Effect of creating `p` and every missing ancestor of it as directories. -/
def FS.mkdirAll (p : Path) (fs : FS) : FS :=
  fun q => if q <+: p ∧ fs q = none then some .dir else fs q

/-- Effect of creating the directory `p`. -/
def FS.mkdir (p : Path) (fs : FS) : FS :=
  fun q => if q = p then some .dir else fs q

/-- Effect of writing `node` at `p`. -/
def FS.write (p : Path) (node : Node) (fs : FS) : FS :=
  fun q => if q = p then some node else fs q

/-- Effect of extracting the entries of an archive below `dir`, in order. -/
def FS.extract (dir : Path) (entries : List TarEntry) (fs : FS) : FS :=
  entries.foldl (fun acc e => FS.write (dir ++ e.name) e.node acc) fs

/-- Effect of moving the tree at `oldpath` to `newpath`, replacing what was there. -/
def FS.rename (oldpath newpath : Path) (fs : FS) : FS :=
  fun q =>
    if newpath <+: q then fs (oldpath ++ q.drop newpath.length)
    else if oldpath <+: q then none
    else fs q

/-- Effect of removing `p` and everything below it. -/
def FS.removeAll (p : Path) (fs : FS) : FS :=
  fun q => if p <+: q then none else fs q

/-! ## The calls -/

/-- `os.MkdirAll(p, 0700)`. A failure may leave the first `k` components created. -/
def os.MkdirAll (fault : Option (Nat × Error)) (p : Path) (w : World) : Option Error × World :=
  let w := w.call (.mkdirAll p)
  match fault with
  | some (k, err) => (some err, { w with fs := FS.mkdirAll (p.take k) w.fs })
  | none => (none, { w with fs := FS.mkdirAll p w.fs })

/-- `ioutil.TempDir(dir, pattern)` for a pattern without `*`: a new directory named
`pattern` followed by a random suffix is created in `dir`. A name that is taken is
never returned. -/
def ioutil.TempDir (pick : Except Error String) (dir : Path) (pattern : String) (w : World) :
    Except Error Path × World :=
  let w := w.call (.tempDir dir pattern)
  match pick with
  | .error err => (.error err, w)
  | .ok suffix =>
    let name := filepath.Join dir (pattern ++ suffix)
    if w.fs name = none then (.ok name, { w with fs := FS.mkdir name w.fs })
    else (.error (.sys "no free name for a temporary directory" true), w)

/-- Modelled from the spec: `archive.UnTGZ(tarball, dir)` of the sdk decompresses and
untars the bytes into `dir`. A failure may leave the first `n` entries written. -/
def archive.UnTGZ (fault : Option (Nat × Error)) (tarball : Tarball) (dir : Path) (w : World) :
    Option Error × World :=
  let w := w.call (.unTGZ tarball dir)
  match fault with
  | some (n, err) => (some err, { w with fs := FS.extract dir (tarball.take n) w.fs })
  | none => (none, { w with fs := FS.extract dir tarball w.fs })

/-- `os.Rename(oldpath, newpath)`; a failed rename changes nothing. -/
def os.Rename (fault : Option Error) (oldpath newpath : Path) (w : World) : Option Error × World :=
  let w := w.call (.rename oldpath newpath)
  match fault with
  | some err => (some err, w)
  | none => (none, { w with fs := FS.rename oldpath newpath w.fs })

/-- `os.RemoveAll(p)`; a failed removal is taken to change nothing. -/
def os.RemoveAll (fault : Option Error) (p : Path) (w : World) : Option Error × World :=
  let w := w.call (.removeAll p)
  match fault with
  | some err => (some err, w)
  | none => (none, { w with fs := FS.removeAll p w.fs })

/-- Modelled from the spec: `workspace.LoadPolicyPack(path)` of the sdk loads the
manifest; a missing or corrupt manifest is an error. -/
def workspace.LoadPolicyPack (result : Except Error PolicyPackProject) (p : Path) (w : World) :
    Except Error PolicyPackProject × World :=
  (result, w.call (.loadPolicyPack p))

/-- Modelled from the spec: `npm.Install(dir, nil, os.Stderr)` of the sdk runs the
dependency-install tool inside `dir` and returns the name of the binary used. What it
writes below `dir` is not tracked. -/
def npm.Install (result : String × Option Error) (dir : Path) (w : World) :
    (String × Option Error) × World :=
  (result, w.call (.npmInstall dir))

/-- Modelled from the spec: `python.InstallDependencies(dir, venvDir, false)` of the
sdk creates the environment `venvDir` inside `dir` and installs the dependencies into
it. What it writes below `dir` is not tracked. -/
def python.InstallDependencies (fault : Option Error) (dir : Path) (venvDir : String)
    (w : World) : Option Error × World :=
  (fault, w.call (.pythonInstallDependencies dir venvDir))

/-- Modelled from the spec: `PolicyPackProject.Save(path)` of the sdk rewrites the
manifest file at `path`; a failed save is taken to change nothing. -/
def workspace.PolicyPackProject.Save (fault : Option Error) (proj : PolicyPackProject)
    (p : Path) (w : World) : Option Error × World :=
  let w := w.call (.save p proj)
  match fault with
  | some err => (some err, w)
  | none => (none, { w with fs := FS.write p (.manifest proj) w.fs })

/-- Modelled from the spec: `workspace.GetPolicyPath(orgName, name, version)` of the
sdk derives the install path as a pure function of organization, normalized name and
version, and reports whether that path already exists. Its results
`(path, installed, err)` are `.ok (path, installed)` when `err` is nil and
`.error err` otherwise. -/
def workspace.GetPolicyPath (env : Env) (orgName name version : String) (w : World) :
    Except Error (Path × Bool) × World :=
  let w := w.call (.getPolicyPath orgName name version)
  match env.getPolicyPath with
  | some err => (.error err, w)
  | none =>
    let policyPackPath := env.policyPath orgName name version
    (.ok (policyPackPath, (w.fs policyPackPath).isSome), w)

/-- `client.DownloadPolicyPack(ctx, location)`. -/
def client.DownloadPolicyPack (env : Env) (location : String) (w : World) :
    Except Error Tarball × World :=
  (env.downloadPolicyPack, w.call (.downloadPolicyPack location))

/-! ## pkg/backend/pulumi/policypack.go -/

namespace pulumi

/-- The struct `RequiredPolicy`: the embedded `apitype.RequiredPolicy` (its `Config`
map left out) and the organization name. The client is part of the `Env`. -/
structure RequiredPolicy where
  Name : String
  Version : Int
  VersionTag : String
  DisplayName : String
  PackLocation : String
  orgName : String
deriving DecidableEq, Repr

/-- `(rp *RequiredPolicy) OrgName()`. -/
def RequiredPolicy.OrgName (rp : RequiredPolicy) : String := rp.orgName

/-- The constant `packageDir`. -/
def packageDir : String := "package"

/-- `completeNodeJSInstall(finalDir)`. -/
def completeNodeJSInstall (env : Env) (finalDir : Path) (w : World) : Option Error × World :=
  match npm.Install env.npmInstall finalDir w with
  | ((bin, some err), w) =>
    (some (errors.Wrap err
      ("failed to install dependencies of policy pack; you may need to re-run " ++ bin ++
        " install in " ++ finalDir.render ++ " before this policy pack works")), w)
  | ((_, none), w) => (none, w)

/-- `completePythonInstall(finalDir, projPath, proj)`. The manifest is passed by
pointer in the source: the manifest returned is what the pointer holds afterwards. -/
def completePythonInstall (env : Env) (finalDir projPath : Path) (proj : PolicyPackProject)
    (w : World) : (Option Error × PolicyPackProject) × World :=
  let venvDir := "venv"
  match python.InstallDependencies env.pythonInstallDependencies finalDir venvDir w with
  | (some err, w) => ((some err, proj), w)
  | (none, w) =>
    -- Save project with venv info.
    let proj := { proj with Runtime := proj.Runtime.SetOption "virtualenv" venvDir }
    match proj.Save env.save projPath w with
    | (some err, w) => ((some (errors.Wrap err ("saving project at " ++ projPath.render)), proj), w)
    | (none, w) => ((none, proj), w)

/-- Lines 134 to 154 of `installRequiredPolicy`: the manifest is loaded from the final
directory and the bootstrap of its runtime is run. -/
def loadAndBootstrap (env : Env) (finalDir : Path) (w : World) : Option Error × World :=
  let projPath := filepath.Join finalDir "PulumiPolicy.yaml"
  match workspace.LoadPolicyPack env.loadPolicyPack projPath w with
  | (.error err, w) =>
    (some (errors.Wrap err ("failed to load policy project at " ++ finalDir.render)), w)
  | (.ok proj, w) =>
    if strings.EqualFold proj.Runtime.Name "nodejs" then
      match completeNodeJSInstall env finalDir w with
      | (some err, w) => (some err, w)
      | (none, w) => (none, w)
    else if strings.EqualFold proj.Runtime.Name "python" then
      match completePythonInstall env finalDir projPath proj w with
      | ((some err, _), w) => (some err, w)
      | ((none, _), w) => (none, w)
    else (none, w)

/-- Lines 119 to 154 of `installRequiredPolicy`, the statements that follow the
`defer`: extraction, the rename into place, then `loadAndBootstrap`. -/
def unpackAndPlace (env : Env) (tempDir tempPackageDir finalDir : Path) (tarball : Tarball)
    (w : World) : Option Error × World :=
  -- Uncompress the policy pack.
  match archive.UnTGZ env.unTGZ tarball tempDir w with
  | (some err, w) => (some err, w)
  | (none, w) =>
    match os.Rename env.rename tempPackageDir finalDir w with
    | (some err, w) =>
      -- err != nil && !os.IsExist(err)
      if !os.IsExist (some err) then (some (errors.Wrap err "moving plugin"), w)
      else loadAndBootstrap env finalDir w
    | (none, w) => loadAndBootstrap env finalDir w

/-- `installRequiredPolicy(finalDir, tarball)`. The function registered with `defer`
runs when `unpackAndPlace`, the rest of the body, returns; the error of the removal
is ignored. -/
def installRequiredPolicy (env : Env) (finalDir : Path) (tarball : Tarball) (w : World) :
    Option Error × World :=
  match os.MkdirAll env.mkdirAllRoot (filepath.Dir finalDir) w with
  | (some err, w) => (some (errors.Wrap err "creating plugin root"), w)
  | (none, w) =>
    match ioutil.TempDir env.tempDir (filepath.Dir finalDir) (filepath.Base finalDir ++ ".tmp") w with
    | (.error err, w) => (some (errors.Wrap err "creating plugin directory "), w)
    | (.ok tempDir, w) =>
      -- The policy pack files are actually in a directory called package.
      let tempPackageDir := filepath.Join tempDir packageDir
      match os.MkdirAll env.mkdirAllPackage tempPackageDir w with
      | (some err, w) => (some (errors.Wrap err "creating plugin root"), w)
      | (none, w) =>
        -- If we early out of this function, try to remove the temp folder we created.
        match unpackAndPlace env tempDir tempPackageDir finalDir tarball w with
        | (result, w) => (result, (os.RemoveAll env.removeAll tempDir w).2)

/-- `(rp *RequiredPolicy) Install(ctx)`. The empty string returned next to an error
is `none`. -/
def RequiredPolicy.Install (env : Env) (rp : RequiredPolicy) (w : World) :
    (Option Path × Option Error) × World :=
  let policy := rp
  -- If version tag is empty, we use the version tag.
  let version := if policy.VersionTag = "" then strconv.Itoa policy.Version else policy.VersionTag
  match workspace.GetPolicyPath env rp.OrgName
      (strings.Replace policy.Name env.QNameDelimiter "_") version w with
  | (.error err, w) =>
    -- Failed to get a sensible PolicyPack path.
    ((none, some err), w)
  | (.ok (policyPackPath, true), w) =>
    -- We have already downloaded and installed the PolicyPack. Return.
    ((some policyPackPath, none), w)
  | (.ok (policyPackPath, false), w) =>
    -- PolicyPack has not been downloaded and installed. Do this now.
    match client.DownloadPolicyPack env policy.PackLocation w with
    | (.error err, w) => ((none, some err), w)
    | (.ok policyPackTarball, w) =>
      match installRequiredPolicy env policyPackPath policyPackTarball w with
      | (err, w) => ((some policyPackPath, err), w)

end pulumi

/-! ## pkg/backend/client.go -/

namespace backend

/-- `StackIdentifier`: the set of data needed to identify a Pulumi stack. -/
structure StackIdentifier where
  Owner : String
  Project : String
  Stack : String
deriving DecidableEq, Repr

/-- `ParseStackIdentifier(s, defaultOwner, defaultProject)`. -/
def ParseStackIdentifier (s defaultOwner defaultProject : String) :
    Except Error StackIdentifier :=
  let id : StackIdentifier := { Owner := defaultOwner, Project := defaultProject, Stack := "" }
  match strings.SplitSlash s with
  | [a] => .ok { id with Stack := a }
  | [a, b] => .ok { id with Owner := a, Stack := b }
  | [a, b, c] => .ok { id with Owner := a, Project := b, Stack := c }
  | _ => .error (.errorf ("could not parse stack name '" ++ s ++ "'"))

end backend

/-! ## pkg/backend/cli/policypack.go -/

namespace cli

/-- What a Go function call ends in: a return value, or a run-time panic. -/
inductive Outcome (α : Type) where
  | ret (a : α)
  | panic (msg : String)
deriving DecidableEq, Repr

/-- The run-time panic of dereferencing a nil pointer. -/
def nilDereference {α : Type} : Outcome α :=
  .panic "invalid memory address or nil pointer dereference"

/-- A policy-pack configuration, `map[string]*json.RawMessage`, as its key-value
pairs. -/
abbrev Config := List (String × String)

/-- Modelled from the spec: `plugin.AnalyzerInfo` of the sdk, the metadata of a policy
pack; this file reads its name and version. -/
structure AnalyzerInfo where
  Name : String
  Version : String
deriving DecidableEq, Repr

/-- Modelled from the spec: `plugin.Context` of the sdk; this file reads its working
directory. Its host is part of the `PublishEnv`. -/
structure PluginContext where
  Pwd : String
deriving DecidableEq, Repr

/-- `PublishOperation` publishes a PolicyPack to the backend. The two pointers are
options, `none` being nil; the cancellation scopes are left out. -/
structure PublishOperation where
  Root : String
  PlugCtx : Option PluginContext
  PolicyPack : Option PolicyPackProject
deriving DecidableEq, Repr

/-- `PolicyPackOperation` is used to make various operations against a Policy Pack.
If `VersionTag` is nil (`none`), the latest version is assumed. The cancellation
scopes are left out. -/
structure PolicyPackOperation where
  VersionTag : Option String
  Config : Config
deriving DecidableEq, Repr

/-- `PolicyPackIdentifier` captures the information necessary to uniquely identify a
policy pack. -/
structure PolicyPackIdentifier where
  OrgName : String
  Name : String
  VersionTag : String
  ConsoleURL : String
deriving DecidableEq, Repr

/-- `(id PolicyPackIdentifier) URL()`. -/
def PolicyPackIdentifier.URL (id : PolicyPackIdentifier) : String :=
  id.ConsoleURL ++ "/" ++ id.OrgName ++ "/policypacks/" ++ id.Name

/-- `(id PolicyPackIdentifier) String()`. -/
def PolicyPackIdentifier.String (id : PolicyPackIdentifier) :=
  id.OrgName ++ "/" ++ id.Name

/-- `ParsePolicyPackIdentifier(s, currentUser, consoleURL)`. -/
def ParsePolicyPackIdentifier (s currentUser consoleURL : String) :
    Except Error PolicyPackIdentifier :=
  match strings.SplitSlash s with
  | [orgName, policyPackName] =>
    let orgName := if orgName = "" then currentUser else orgName
    .ok { OrgName := orgName, Name := policyPackName, VersionTag := "", ConsoleURL := consoleURL }
  | _ =>
    .error (.errorf ("could not parse policy pack name '" ++ s ++
      "'; must be of the form <org-name>/<policy-pack-name>"))

/-- Calls on the collaborators of a `PolicyPack`, as recorded in a log. -/
inductive Call where
  | policyAnalyzer (name pwd : String)
  | getAnalyzerInfo
  | npmPack (dir : String)
  | archiveTGZ (dir prefixPathInsideTar : String) (useDefaultExcludes : Bool)
  | publishPolicyPack (orgName : String) (analyzerInfo : AnalyzerInfo) (dirArchive : List Nat)
  | enablePolicyPack (orgName policyGroup policyPackName versionTag : String) (config : Config)
  | getPolicyPackSchema (orgName policyPackName versionTag : String)
  | validatePolicyPackConfig (config : Config)
  | disablePolicyPack (orgName policyGroup policyPackName versionTag : String)
  | deletePolicyPack (orgName policyPackName versionTag : String)
deriving DecidableEq, Repr

/-- The collaborators of `Publish`: what each external call returns. -/
structure PublishEnv where
  /-- Result of `filepath.Abs`. -/
  abs : Except Error String
  /-- Failure of `Host.PolicyAnalyzer`. -/
  policyAnalyzer : Option Error
  /-- Result of `analyzer.GetAnalyzerInfo`. -/
  getAnalyzerInfo : Except Error AnalyzerInfo
  /-- Result of `npm.Pack`. -/
  npmPack : Except Error (List Nat)
  /-- Result of `archive.TGZ`. -/
  archiveTGZ : Except Error (List Nat)
  /-- Result of the client call `PublishPolicyPack`. -/
  publishPolicyPack : Except Error String

/-- The interface `backend.PolicyClient`, for the calls of this file other than
`PublishPolicyPack`: what the service answers to each request. -/
structure PolicyClient where
  EnablePolicyPack : String → String → String → String → Config → Option Error
  GetPolicyPackSchema : String → String → String → Option Error
  DisablePolicyPack : String → String → String → String → Option Error
  DeletePolicyPack : String → String → String → Option Error
  /-- Result of `resourceanalyzer.ValidatePolicyPackConfig` on the schema returned. -/
  ValidatePolicyPackConfig : Config → Option Error

/-- `PolicyPack` is the Pulumi service implementation of the PolicyPack interface. -/
structure PolicyPack where
  id : PolicyPackIdentifier
  cl : PolicyClient

/-- `(pack *PolicyPack) Publish(ctx, op)`. The result is the `result.Result` returned
(nil is `none`), the identifier the pack holds afterwards, and the log of calls. -/
def PolicyPack.Publish (env : PublishEnv) (id : PolicyPackIdentifier) (op : PublishOperation)
    (log : List Call) : Outcome (Option Error) × PolicyPackIdentifier × List Call :=
  -- Get PolicyPack metadata from the plugin.
  match op.PlugCtx with
  | none => (nilDereference, id, log)
  | some plugCtx =>
    match env.abs with
    | .error err => (.ret (some err), id, log)
    | .ok abs =>
      let log := log ++ [.policyAnalyzer abs plugCtx.Pwd]
      match env.policyAnalyzer with
      | some err => (.ret (some err), id, log)
      | none =>
        let log := log ++ [.getAnalyzerInfo]
        match env.getAnalyzerInfo with
        | .error err => (.ret (some err), id, log)
        | .ok analyzerInfo =>
          -- Update the name and version tag from the metadata.
          let id := { id with Name := analyzerInfo.Name, VersionTag := analyzerInfo.Version }
          match op.PolicyPack with
          | none => (nilDereference, id, log)
          | some policyPack =>
            let runtime := policyPack.Runtime.Name
            let packed : Except Error (List Nat) × List Call :=
              if strings.EqualFold runtime "nodejs" then
                match env.npmPack with
                | .error err =>
                  (.error (errors.Wrap err
                    "could not publish policies because of error running npm pack"),
                    log ++ [.npmPack plugCtx.Pwd])
                | .ok packTarball => (.ok packTarball, log ++ [.npmPack plugCtx.Pwd])
              else if strings.EqualFold runtime "python" then
                match env.archiveTGZ with
                | .error err =>
                  (.error (errors.Wrap err
                    "could not publish policies because of error creating the .tgz"),
                    log ++ [.archiveTGZ plugCtx.Pwd "package" true])
                | .ok packTarball => (.ok packTarball, log ++ [.archiveTGZ plugCtx.Pwd "package" true])
              else
                (.error (.errorf
                  ("failed to publish policies because PulumiPolicy.yaml specifies an " ++
                    "unsupported runtime " ++ runtime)), log)
            match packed with
            | (.error err, log) => (.ret (some err), id, log)
            | (.ok packTarball, log) =>
              -- Publish.
              let log := log ++ [.publishPolicyPack id.OrgName analyzerInfo packTarball]
              match env.publishPolicyPack with
              | .error err => (.ret (some err), id, log)
              | .ok _ => (.ret none, id, log)

/-- `(pack *PolicyPack) Enable(ctx, policyGroup, op)`. -/
def PolicyPack.Enable (pack : PolicyPack) (policyGroup : String) (op : PolicyPackOperation)
    (log : List Call) : Outcome (Option Error) × List Call :=
  let versionTag := match op.VersionTag with
    | some tag => tag
    | none => ""
  (.ret (pack.cl.EnablePolicyPack pack.id.OrgName policyGroup pack.id.Name versionTag op.Config),
    log ++ [.enablePolicyPack pack.id.OrgName policyGroup pack.id.Name versionTag op.Config])

/-- `(pack *PolicyPack) Validate(ctx, op)`. The version tag is dereferenced as the
arguments of the client call are evaluated. -/
def PolicyPack.Validate (pack : PolicyPack) (op : PolicyPackOperation) (log : List Call) :
    Outcome (Option Error) × List Call :=
  match op.VersionTag with
  | none => (nilDereference, log)
  | some versionTag =>
    let log := log ++ [.getPolicyPackSchema pack.id.OrgName pack.id.Name versionTag]
    match pack.cl.GetPolicyPackSchema pack.id.OrgName pack.id.Name versionTag with
    | some err => (.ret (some err), log)
    | none =>
      let log := log ++ [.validatePolicyPackConfig op.Config]
      match pack.cl.ValidatePolicyPackConfig op.Config with
      | some err => (.ret (some err), log)
      | none => (.ret none, log)

/-- `(pack *PolicyPack) Disable(ctx, policyGroup, op)`. -/
def PolicyPack.Disable (pack : PolicyPack) (policyGroup : String) (op : PolicyPackOperation)
    (log : List Call) : Outcome (Option Error) × List Call :=
  let versionTag := match op.VersionTag with
    | some tag => tag
    | none => ""
  (.ret (pack.cl.DisablePolicyPack pack.id.OrgName policyGroup pack.id.Name versionTag),
    log ++ [.disablePolicyPack pack.id.OrgName policyGroup pack.id.Name versionTag])

/-- `(pack *PolicyPack) Remove(ctx, op)`. -/
def PolicyPack.Remove (pack : PolicyPack) (op : PolicyPackOperation) (log : List Call) :
    Outcome (Option Error) × List Call :=
  let versionTag := match op.VersionTag with
    | some tag => tag
    | none => ""
  (.ret (pack.cl.DeletePolicyPack pack.id.OrgName pack.id.Name versionTag),
    log ++ [.deletePolicyPack pack.id.OrgName pack.id.Name versionTag])

end cli

/-! ## Vocabulary of the statements and sample inputs -/

namespace pulumi

/-- The name of the staging directory of `finalDir` for the random suffix `suffix`. -/
def stagingDir (finalDir : Path) (suffix : String) : Path :=
  filepath.Join (filepath.Dir finalDir) (filepath.Base finalDir ++ ".tmp" ++ suffix)

/-- The external calls of `installRequiredPolicy` up to and including the rename, when
every step before the rename succeeds. -/
def stagingCalls (finalDir : Path) (suffix : String) (tarball : Tarball) : List Call :=
  [.mkdirAll (filepath.Dir finalDir),
   .tempDir (filepath.Dir finalDir) (filepath.Base finalDir ++ ".tmp"),
   .mkdirAll (filepath.Join (stagingDir finalDir suffix) packageDir),
   .unTGZ tarball (stagingDir finalDir suffix),
   .rename (filepath.Join (stagingDir finalDir suffix) packageDir) finalDir]

/-- Every step of `installRequiredPolicy` before the rename succeeds: no failure is
injected and the name picked for the staging directory is free. -/
def StagingSucceeds (env : Env) (finalDir : Path) (suffix : String) (w : World) : Prop :=
  env.mkdirAllRoot = none ∧ env.tempDir = .ok suffix ∧ w.fs (stagingDir finalDir suffix) = none ∧
    env.mkdirAllPackage = none ∧ env.unTGZ = none

/-- The world after the staging steps of `installRequiredPolicy` all succeeded:
the parent exists, the staging directory and its `package` folder are created and the
archive is extracted below the staging directory. -/
def stagedWorld (finalDir : Path) (suffix : String) (tarball : Tarball) (w : World) : World :=
  { fs := FS.extract (stagingDir finalDir suffix) tarball
      (FS.mkdirAll (filepath.Join (stagingDir finalDir suffix) packageDir)
        (FS.mkdir (stagingDir finalDir suffix) (FS.mkdirAll (filepath.Dir finalDir) w.fs))),
    log := w.log ++
      [.mkdirAll (filepath.Dir finalDir),
       .tempDir (filepath.Dir finalDir) (filepath.Base finalDir ++ ".tmp"),
       .mkdirAll (filepath.Join (stagingDir finalDir suffix) packageDir),
       .unTGZ tarball (stagingDir finalDir suffix)] }

/-- The world with nothing on disk and no call made. -/
def emptyWorld : World := { fs := fun _ => none, log := [] }

/-- A sample derivation of the install path. -/
def samplePolicyPath (orgName name version : String) : Path :=
  ["policies", orgName, "pulumi-analyzer-" ++ name ++ "-v" ++ version]

/-- A sample manifest of a python policy pack. -/
def sampleManifest : PolicyPackProject :=
  { Name := "secure-policies", Runtime := { name := "python", options := [] } }

/-- A sample archive: the `package` folder and the manifest inside it. -/
def sampleTarball : Tarball :=
  [{ name := ["package"], node := .dir },
   { name := ["package", "PulumiPolicy.yaml"], node := .manifest sampleManifest }]

/-- An environment in which every call succeeds. -/
def sampleEnv : Env :=
  { QNameDelimiter := "/"
    policyPath := samplePolicyPath
    getPolicyPath := none
    downloadPolicyPack := .ok sampleTarball
    mkdirAllRoot := none
    tempDir := .ok "123"
    mkdirAllPackage := none
    unTGZ := none
    rename := none
    removeAll := none
    loadPolicyPack := .ok sampleManifest
    npmInstall := ("npm", none)
    pythonInstallDependencies := none
    save := none }

/-- The required policy `acme/secure-policies` at version `1.0.0`. -/
def acmePolicy : RequiredPolicy :=
  { Name := "secure-policies", Version := 1, VersionTag := "1.0.0", DisplayName := "",
    PackLocation := "https://example.com/pack.tgz", orgName := "acme" }

/-- The install path of `acmePolicy` under `samplePolicyPath`. -/
def acmeFinalDir : Path := ["policies", "acme", "pulumi-analyzer-secure-policies-v1.0.0"]

/-- The environment of `sampleEnv` in which creating the `package` folder of the
staging directory fails, the disk being full. -/
def noSpaceEnv : Env :=
  { sampleEnv with mkdirAllPackage := some (0, .sys "no space left on device" false) }

end pulumi

namespace cli

/-- A policy client whose service accepts every request. -/
def sampleClient : PolicyClient :=
  { EnablePolicyPack := fun _ _ _ _ _ => none
    GetPolicyPackSchema := fun _ _ _ => none
    DisablePolicyPack := fun _ _ _ _ => none
    DeletePolicyPack := fun _ _ _ => none
    ValidatePolicyPackConfig := fun _ => none }

/-- The policy pack `acme/secure-policies`. -/
def samplePack : PolicyPack :=
  { id := { OrgName := "acme", Name := "secure-policies", VersionTag := "",
            ConsoleURL := "https://app.pulumi.com" },
    cl := sampleClient }

/-- An operation on the latest version: the version tag is nil. -/
def latestOperation : PolicyPackOperation := { VersionTag := none, Config := [] }

/-- An environment of `Publish` in which every call succeeds. -/
def samplePublishEnv : PublishEnv :=
  { abs := .ok "/work/pack"
    policyAnalyzer := none
    getAnalyzerInfo := .ok { Name := "secure-policies", Version := "1.0.0" }
    npmPack := .ok [31, 139]
    archiveTGZ := .ok [31, 139]
    publishPolicyPack := .ok "1.0.0" }

/-- The publication of a directory whose manifest names the runtime "ruby". -/
def rubyOperation : PublishOperation :=
  { Root := "/work/pack"
    PlugCtx := some { Pwd := "/work/pack" }
    PolicyPack := some { Name := "secure-policies", Runtime := { name := "ruby", options := [] } } }

end cli

namespace pulumi

/-- A world in which the install path of `acmePolicy` exists. -/
def installedWorld : World :=
  { fs := fun q => if q = acmeFinalDir then some .dir else none, log := [] }

/-- The environment of `sampleEnv` in which the rename loses the race against another
installer. -/
def raceLostEnv : Env := { sampleEnv with rename := some (.sys "file exists" true) }

/-- A required policy whose name contains the qualified-name delimiter. -/
def qualifiedPolicy : RequiredPolicy :=
  { Name := "aws/secure-policies", Version := 3, VersionTag := "", DisplayName := "",
    PackLocation := "https://example.com/pack.tgz", orgName := "acme" }

/-- The environment of `sampleEnv` for a nodejs policy pack whose dependency
installation fails. -/
def npmFailsEnv : Env :=
  { sampleEnv with
    loadPolicyPack := .ok { Name := "secure-policies", Runtime := { name := "nodejs", options := [] } }
    npmInstall := ("npm", some (.sys "exit status 1" false)) }

end pulumi

/-! ## Theorems -/

namespace pulumi

theorem stagingDir_not_prefix_dir (finalDir : Path) (suffix : String) :
    ¬ stagingDir finalDir suffix <+: filepath.Dir finalDir := by
  intro h
  have := h.length_le
  simp [stagingDir, filepath.Join] at this

theorem mkdirAll_stagingDir (finalDir : Path) (suffix : String) (fs : FS) :
    FS.mkdirAll (filepath.Dir finalDir) fs (stagingDir finalDir suffix) =
      fs (stagingDir finalDir suffix) := by
  simp [FS.mkdirAll, stagingDir_not_prefix_dir]

/-- C1: when the derived install path of a required policy already exists, `Install`
returns exactly that path with a nil error, and the only external call it makes is the
path lookup: nothing is downloaded, staged, extracted or bootstrapped, and the
filesystem is left as it was. -/
theorem Install_cache_hit (env : Env) (rp : RequiredPolicy) (w : World)
    (hget : env.getPolicyPath = none)
    (hexists : (w.fs (env.policyPath rp.OrgName
      (strings.Replace rp.Name env.QNameDelimiter "_")
      (if rp.VersionTag = "" then strconv.Itoa rp.Version else rp.VersionTag))).isSome = true) :
    RequiredPolicy.Install env rp w =
      ((some (env.policyPath rp.OrgName
          (strings.Replace rp.Name env.QNameDelimiter "_")
          (if rp.VersionTag = "" then strconv.Itoa rp.Version else rp.VersionTag)), none),
        { fs := w.fs,
          log := w.log ++ [.getPolicyPath rp.OrgName
            (strings.Replace rp.Name env.QNameDelimiter "_")
            (if rp.VersionTag = "" then strconv.Itoa rp.Version else rp.VersionTag)] }) := by
  simp only [RequiredPolicy.Install, workspace.GetPolicyPath, hget, World.call]
  simp only [hexists]

theorem installRequiredPolicy_of_staging {env : Env} {finalDir : Path} {suffix : String}
    {w : World} (tarball : Tarball) (h : StagingSucceeds env finalDir suffix w) :
    installRequiredPolicy env finalDir tarball w =
      (match os.Rename env.rename (filepath.Join (stagingDir finalDir suffix) packageDir) finalDir
          (stagedWorld finalDir suffix tarball w) with
        | (some err, w1) =>
          if !os.IsExist (some err) then
            (some (errors.Wrap err "moving plugin"),
              (os.RemoveAll env.removeAll (stagingDir finalDir suffix) w1).2)
          else
            ((loadAndBootstrap env finalDir w1).1,
              (os.RemoveAll env.removeAll (stagingDir finalDir suffix)
                (loadAndBootstrap env finalDir w1).2).2)
        | (none, w1) =>
          ((loadAndBootstrap env finalDir w1).1,
            (os.RemoveAll env.removeAll (stagingDir finalDir suffix)
              (loadAndBootstrap env finalDir w1).2).2)) := by
  obtain ⟨h1, h2, h3, h4, h5⟩ := h
  have h3' : FS.mkdirAll (filepath.Dir finalDir) w.fs (stagingDir finalDir suffix) = none := by
    rw [mkdirAll_stagingDir]; exact h3
  unfold installRequiredPolicy
  simp only [os.MkdirAll, h1, ioutil.TempDir, h2, World.call, h4, unpackAndPlace, archive.UnTGZ,
    h5, stagedWorld]
  have e : filepath.Join (filepath.Dir finalDir) (filepath.Base finalDir ++ ".tmp" ++ suffix) =
      stagingDir finalDir suffix := rfl
  simp only [e, h3', if_true, List.append_assoc, List.singleton_append, List.cons_append,
    List.nil_append]
  cases hr : env.rename with
  | none => simp [os.Rename, World.call]
  | some err =>
    simp only [os.Rename, World.call]
    split <;> rfl

theorem RemoveAll_log (fault : Option Error) (p : Path) (w : World) :
    (os.RemoveAll fault p w).2.log = w.log ++ [.removeAll p] := by
  cases fault <;> simp [os.RemoveAll, World.call]

theorem loadAndBootstrap_fst (env : Env) (finalDir : Path) (w : World) :
    (loadAndBootstrap env finalDir w).1 = (loadAndBootstrap env finalDir emptyWorld).1 := by
  unfold loadAndBootstrap completeNodeJSInstall completePythonInstall
  simp only [workspace.LoadPolicyPack, npm.Install, python.InstallDependencies,
    workspace.PolicyPackProject.Save, World.call]
  cases env.loadPolicyPack with
  | error e => rfl
  | ok proj =>
    rcases env.npmInstall with ⟨bin, _ | e⟩ <;> cases env.pythonInstallDependencies <;>
      cases env.save <;> simp only [] <;> split_ifs <;> rfl

theorem loadAndBootstrap_log (env : Env) (finalDir : Path) (w : World) :
    (loadAndBootstrap env finalDir w).2.log =
      w.log ++ (loadAndBootstrap env finalDir emptyWorld).2.log := by
  unfold loadAndBootstrap completeNodeJSInstall completePythonInstall
  simp only [workspace.LoadPolicyPack, npm.Install, python.InstallDependencies,
    workspace.PolicyPackProject.Save, World.call]
  cases env.loadPolicyPack with
  | error e => simp [emptyWorld]
  | ok proj =>
    rcases env.npmInstall with ⟨bin, _ | e⟩ <;> cases env.pythonInstallDependencies <;>
      cases env.save <;> simp only [] <;> split_ifs <;> simp [emptyWorld]

theorem loadAndBootstrap_log_head (env : Env) (finalDir : Path) :
    ∃ rest, (loadAndBootstrap env finalDir emptyWorld).2.log =
      .loadPolicyPack (filepath.Join finalDir "PulumiPolicy.yaml") :: rest := by
  unfold loadAndBootstrap completeNodeJSInstall completePythonInstall
  simp only [workspace.LoadPolicyPack, npm.Install, python.InstallDependencies,
    workspace.PolicyPackProject.Save, World.call]
  cases env.loadPolicyPack with
  | error e => simp [emptyWorld]
  | ok proj =>
    rcases env.npmInstall with ⟨bin, _ | e⟩ <;> cases env.pythonInstallDependencies <;>
      cases env.save <;> simp only [] <;> split_ifs <;> simp [emptyWorld]

theorem StagingSucceeds.with_rename {env : Env} {finalDir : Path} {suffix : String} {w : World}
    (h : StagingSucceeds env finalDir suffix w) (r : Option Error) :
    StagingSucceeds { env with rename := r } finalDir suffix w := h

theorem loadAndBootstrap_with_rename (env : Env) (r : Option Error) (finalDir : Path) (w : World) :
    loadAndBootstrap { env with rename := r } finalDir w = loadAndBootstrap env finalDir w := rfl

/-- C2: when every step before the rename succeeds and the rename fails with error `e`:
if `e` is an already-exists error, the error returned and the external calls made are
those of the same install with a successful rename, and the call that follows the
rename is the manifest load; if `e` is any other error, `installRequiredPolicy` returns
`e` wrapped and after the rename only removes the staging directory, so the manifest is
not loaded and no bootstrap runs. -/
theorem installRequiredPolicy_rename_failure (env : Env) (finalDir : Path) (tarball : Tarball)
    (w : World) (suffix : String) (e : Error)
    (hstage : StagingSucceeds env finalDir suffix w) (hrename : env.rename = some e) :
    (os.IsExist (some e) = true →
      (installRequiredPolicy env finalDir tarball w).1 =
          (installRequiredPolicy { env with rename := none } finalDir tarball w).1 ∧
        (installRequiredPolicy env finalDir tarball w).2.log =
          (installRequiredPolicy { env with rename := none } finalDir tarball w).2.log ∧
        ∃ rest, (installRequiredPolicy env finalDir tarball w).2.log =
          w.log ++ stagingCalls finalDir suffix tarball ++
            .loadPolicyPack (filepath.Join finalDir "PulumiPolicy.yaml") :: rest) ∧
    (os.IsExist (some e) = false →
      (installRequiredPolicy env finalDir tarball w).1 = some (errors.Wrap e "moving plugin") ∧
        (installRequiredPolicy env finalDir tarball w).2.log =
          w.log ++ stagingCalls finalDir suffix tarball ++
            [.removeAll (stagingDir finalDir suffix)]) := by
  rw [installRequiredPolicy_of_staging tarball hstage,
    installRequiredPolicy_of_staging tarball (hstage.with_rename none)]
  simp only [hrename, loadAndBootstrap_with_rename]
  constructor
  · intro hex
    simp only [os.Rename, hex, Bool.not_true, Bool.false_eq_true, if_false, World.call]
    refine ⟨?_, ?_, ?_⟩
    · exact (loadAndBootstrap_fst env finalDir _).trans (loadAndBootstrap_fst env finalDir _).symm
    · simp only [RemoveAll_log]
      rw [loadAndBootstrap_log env finalDir, loadAndBootstrap_log env finalDir
        { fs := FS.rename _ _ _, log := _ }]
    · obtain ⟨rest, hrest⟩ := loadAndBootstrap_log_head env finalDir
      refine ⟨rest ++ [.removeAll (stagingDir finalDir suffix)], ?_⟩
      rw [RemoveAll_log, loadAndBootstrap_log, hrest]
      simp [stagedWorld, stagingCalls]
  · intro hex
    simp only [os.Rename, hex, Bool.not_false, if_true, World.call, RemoveAll_log]
    simp [stagedWorld, stagingCalls]

theorem base_ne_staging_base (b suffix : String) : b ++ ".tmp" ++ suffix ≠ b := by
  intro h
  have := congrArg String.length h
  simp [String.length_append] at this
  have h4 : (".tmp" : String).length = 4 := by decide
  omega

theorem exists_init_last {finalDir : Path} (h : finalDir ≠ []) :
    ∃ init last, finalDir = init ++ [last] :=
  ⟨finalDir.dropLast, finalDir.getLast h, (List.dropLast_append_getLast h).symm⟩

theorem dir_append_singleton (init : Path) (last : String) :
    filepath.Dir (init ++ [last]) = init := by
  simp [filepath.Dir]

theorem base_append_singleton (init : Path) (last : String) :
    filepath.Base (init ++ [last]) = last := by
  simp [filepath.Base]

theorem stagingDir_append_singleton (init : Path) (last suffix : String) :
    stagingDir (init ++ [last]) suffix = init ++ [last ++ ".tmp" ++ suffix] := by
  simp [stagingDir, filepath.Join, dir_append_singleton, base_append_singleton]

theorem final_not_prefix_dir {finalDir : Path} (h : finalDir ≠ []) (k : Nat) :
    ¬ finalDir <+: (filepath.Dir finalDir).take k := by
  obtain ⟨init, last, rfl⟩ := exists_init_last h
  intro hp
  have h1 := hp.length_le
  rw [dir_append_singleton] at h1
  simp only [List.length_append, List.length_singleton, List.length_take] at h1
  omega

theorem staging_not_prefix_final {finalDir : Path} (h : finalDir ≠ []) (suffix : String) :
    ¬ stagingDir finalDir suffix <+: finalDir := by
  obtain ⟨init, last, rfl⟩ := exists_init_last h
  rw [stagingDir_append_singleton]
  intro hp
  have := (List.prefix_append_right_inj init).mp hp
  simp at this
  exact base_ne_staging_base _ _ this

theorem final_ne_staging {finalDir : Path} (h : finalDir ≠ []) (suffix : String) :
    finalDir ≠ stagingDir finalDir suffix := by
  intro he
  apply staging_not_prefix_final h suffix
  rw [← he]

theorem final_not_prefix_package {finalDir : Path} (h : finalDir ≠ []) (suffix : String)
    (k : Nat) :
    ¬ finalDir <+: (filepath.Join (stagingDir finalDir suffix) packageDir).take k := by
  obtain ⟨init, last, rfl⟩ := exists_init_last h
  rw [stagingDir_append_singleton]
  intro hp
  have hp2 := hp.trans (List.take_prefix k _)
  simp only [filepath.Join, List.append_assoc] at hp2
  have := (List.prefix_append_right_inj init).mp hp2
  simp at this
  exact base_ne_staging_base _ _ this.symm

theorem extract_outside (dir : Path) (entries : List TarEntry) (fs : FS) (q : Path)
    (h : ¬ dir <+: q) : FS.extract dir entries fs q = fs q := by
  induction entries generalizing fs with
  | nil => rfl
  | cons e es ih =>
    simp only [FS.extract, List.foldl_cons] at ih ⊢
    rw [ih]
    have : q ≠ dir ++ e.name := by
      rintro rfl
      exact h (List.prefix_append _ _)
    simp [FS.write, this]

theorem mkdirAll_take_dir_final {finalDir : Path} (h : finalDir ≠ []) (k : Nat) (fs : FS) :
    FS.mkdirAll ((filepath.Dir finalDir).take k) fs finalDir = fs finalDir := by
  simp [FS.mkdirAll, final_not_prefix_dir h k]

theorem mkdirAll_dir_final {finalDir : Path} (h : finalDir ≠ []) (fs : FS) :
    FS.mkdirAll (filepath.Dir finalDir) fs finalDir = fs finalDir := by
  have := mkdirAll_take_dir_final h (filepath.Dir finalDir).length fs
  rwa [List.take_length] at this

theorem mkdir_staging_final {finalDir : Path} (h : finalDir ≠ []) (suffix : String) (fs : FS) :
    FS.mkdir (stagingDir finalDir suffix) fs finalDir = fs finalDir := by
  simp [FS.mkdir, final_ne_staging h suffix]

theorem mkdirAll_take_package_final {finalDir : Path} (h : finalDir ≠ []) (suffix : String)
    (k : Nat) (fs : FS) :
    FS.mkdirAll ((filepath.Join (stagingDir finalDir suffix) packageDir).take k) fs finalDir =
      fs finalDir := by
  simp [FS.mkdirAll, final_not_prefix_package h suffix k]

theorem mkdirAll_package_final {finalDir : Path} (h : finalDir ≠ []) (suffix : String)
    (fs : FS) :
    FS.mkdirAll (filepath.Join (stagingDir finalDir suffix) packageDir) fs finalDir =
      fs finalDir := by
  have := mkdirAll_take_package_final h suffix
    (filepath.Join (stagingDir finalDir suffix) packageDir).length fs
  rwa [List.take_length] at this

theorem extract_staging_final {finalDir : Path} (h : finalDir ≠ []) (suffix : String)
    (entries : List TarEntry) (fs : FS) :
    FS.extract (stagingDir finalDir suffix) entries fs finalDir = fs finalDir :=
  extract_outside _ _ _ _ (staging_not_prefix_final h suffix)

theorem removeAll_staging_final {finalDir : Path} (h : finalDir ≠ []) (suffix : String)
    (fs : FS) :
    FS.removeAll (stagingDir finalDir suffix) fs finalDir = fs finalDir := by
  simp [FS.removeAll, staging_not_prefix_final h suffix]

/-- C4: when the final directory (not the root) does not exist and a step of
`installRequiredPolicy` before the rename fails (the parent cannot be created, no
staging directory is obtained, its `package` folder cannot be created, or the
extraction fails, possibly half-way), then `installRequiredPolicy` returns an error
without calling rename, and the final directory still does not exist. -/
theorem installRequiredPolicy_failure_before_rename (env : Env) (finalDir : Path)
    (tarball : Tarball) (w : World) (hroot : finalDir ≠ []) (habsent : w.fs finalDir = none)
    (hfail : env.mkdirAllRoot ≠ none ∨
      (∀ suffix, env.tempDir = .ok suffix → w.fs (stagingDir finalDir suffix) ≠ none) ∨
      env.mkdirAllPackage ≠ none ∨ env.unTGZ ≠ none) :
    (installRequiredPolicy env finalDir tarball w).1 ≠ none ∧
      (installRequiredPolicy env finalDir tarball w).2.fs finalDir = none ∧
      ∃ calls, (installRequiredPolicy env finalDir tarball w).2.log = w.log ++ calls ∧
        ∀ oldpath newpath, Call.rename oldpath newpath ∉ calls := by
  unfold installRequiredPolicy
  cases h1 : env.mkdirAllRoot with
  | some ke =>
    obtain ⟨k, err⟩ := ke
    simp only [os.MkdirAll, World.call]
    refine ⟨by simp, ?_, ⟨_, rfl, by simp⟩⟩
    simp [mkdirAll_take_dir_final hroot, habsent]
  | none =>
    simp only [os.MkdirAll, World.call, ioutil.TempDir]
    cases h2 : env.tempDir with
    | error err =>
      refine ⟨by simp, ?_, ⟨_, by simp; rfl, by simp⟩⟩
      simp [mkdirAll_dir_final hroot, habsent]
    | ok suffix =>
      have e : filepath.Join (filepath.Dir finalDir) (filepath.Base finalDir ++ ".tmp" ++ suffix) =
        stagingDir finalDir suffix := rfl
      simp only [e, mkdirAll_stagingDir]
      by_cases h3 : w.fs (stagingDir finalDir suffix) = none
      · simp only [h3, if_true]
        cases h4 : env.mkdirAllPackage with
        | some ke =>
          obtain ⟨k, err⟩ := ke
          refine ⟨by simp, ?_, ⟨_, by simp; rfl, by simp⟩⟩
          simp [mkdirAll_take_package_final hroot, mkdir_staging_final hroot,
            mkdirAll_dir_final hroot, habsent]
        | none =>
          cases h5 : env.unTGZ with
          | some ne =>
            obtain ⟨n, err⟩ := ne
            simp only [unpackAndPlace, archive.UnTGZ, h5, World.call, os.RemoveAll]
            cases env.removeAll <;>
            · refine ⟨by simp, ?_, ⟨_, by simp; rfl, by simp⟩⟩
              simp [removeAll_staging_final hroot, extract_staging_final hroot,
                mkdirAll_package_final hroot, mkdir_staging_final hroot,
                mkdirAll_dir_final hroot, habsent]
          | none =>
            exfalso
            rcases hfail with hf | hf | hf | hf
            · exact hf h1
            · exact hf suffix h2 h3
            · exact hf h4
            · exact hf h5
      · simp only [h3, if_false]
        refine ⟨by simp, ?_, ⟨_, by simp; rfl, by simp⟩⟩
        simp [mkdirAll_dir_final hroot, habsent]

/-- C3: the staging directory is not removed on every exit path. When creating the
`package` folder of the staging directory fails (here: the disk is full),
`installRequiredPolicy` returns the wrapped error before the removal is deferred: the
staging directory still exists afterwards and `os.RemoveAll` has not been called. -/
theorem installRequiredPolicy_leaks_staging_dir :
    (installRequiredPolicy noSpaceEnv acmeFinalDir sampleTarball emptyWorld).1 =
        some (errors.Wrap (.sys "no space left on device" false) "creating plugin root") ∧
      (installRequiredPolicy noSpaceEnv acmeFinalDir sampleTarball emptyWorld).2.fs
        (stagingDir acmeFinalDir "123") = some .dir ∧
      (installRequiredPolicy noSpaceEnv acmeFinalDir sampleTarball emptyWorld).2.log =
        [.mkdirAll (filepath.Dir acmeFinalDir),
         .tempDir (filepath.Dir acmeFinalDir) (filepath.Base acmeFinalDir ++ ".tmp"),
         .mkdirAll (filepath.Join (stagingDir acmeFinalDir "123") packageDir)] := by
  decide

/-- Once the staging directory and its `package` folder have been created, nothing is
left at or below the staging directory when `installRequiredPolicy` returns, whatever
the outcome of the later steps, provided the removal itself succeeds. -/
theorem installRequiredPolicy_cleanup_after_package (env : Env) (finalDir : Path)
    (tarball : Tarball) (w : World) (suffix : String)
    (h1 : env.mkdirAllRoot = none) (h2 : env.tempDir = .ok suffix)
    (h3 : w.fs (stagingDir finalDir suffix) = none) (h4 : env.mkdirAllPackage = none)
    (hrm : env.removeAll = none) (q : Path) (hq : stagingDir finalDir suffix <+: q) :
    (installRequiredPolicy env finalDir tarball w).2.fs q = none := by
  have h3' : FS.mkdirAll (filepath.Dir finalDir) w.fs (stagingDir finalDir suffix) = none := by
    rw [mkdirAll_stagingDir]; exact h3
  have e : filepath.Join (filepath.Dir finalDir) (filepath.Base finalDir ++ ".tmp" ++ suffix) =
      stagingDir finalDir suffix := rfl
  unfold installRequiredPolicy
  simp only [os.MkdirAll, h1, ioutil.TempDir, h2, World.call, h4, e, h3', if_true, hrm,
    os.RemoveAll, FS.removeAll, hq]

/-- When the staging directory has been created and creating its `package` folder
fails, `installRequiredPolicy` returns without removing the staging directory. -/
theorem installRequiredPolicy_no_cleanup_before_defer (env : Env) (finalDir : Path)
    (tarball : Tarball) (w : World) (suffix : String) (k : Nat) (err : Error)
    (h1 : env.mkdirAllRoot = none) (h2 : env.tempDir = .ok suffix)
    (h3 : w.fs (stagingDir finalDir suffix) = none)
    (h4 : env.mkdirAllPackage = some (k, err)) :
    (installRequiredPolicy env finalDir tarball w).2.fs (stagingDir finalDir suffix) =
        some .dir ∧
      (installRequiredPolicy env finalDir tarball w).2.log = w.log ++
        [.mkdirAll (filepath.Dir finalDir),
         .tempDir (filepath.Dir finalDir) (filepath.Base finalDir ++ ".tmp"),
         .mkdirAll (filepath.Join (stagingDir finalDir suffix) packageDir)] := by
  have h3' : FS.mkdirAll (filepath.Dir finalDir) w.fs (stagingDir finalDir suffix) = none := by
    rw [mkdirAll_stagingDir]; exact h3
  have e : filepath.Join (filepath.Dir finalDir) (filepath.Base finalDir ++ ".tmp" ++ suffix) =
      stagingDir finalDir suffix := rfl
  unfold installRequiredPolicy
  simp only [os.MkdirAll, h1, ioutil.TempDir, h2, World.call, h4, e, h3', if_true]
  constructor
  · simp [FS.mkdirAll, FS.mkdir]
  · simp

end pulumi

namespace cli

/-- C5: once the analyzer metadata has been obtained, `Publish` of a policy pack whose
runtime name equals neither "nodejs" nor "python" ignoring case returns the
unsupported-runtime error naming that runtime, and the only calls it has made are the
two that obtain the metadata: neither `npm pack` nor the tgz builder runs and the
client's `PublishPolicyPack` is never called. -/
theorem Publish_unsupported_runtime (env : PublishEnv) (id : PolicyPackIdentifier)
    (op : PublishOperation) (log : List Call) (plugCtx : PluginContext)
    (policyPack : PolicyPackProject) (abs : String) (analyzerInfo : AnalyzerInfo)
    (hctx : op.PlugCtx = some plugCtx) (hpack : op.PolicyPack = some policyPack)
    (habs : env.abs = .ok abs) (hanalyzer : env.policyAnalyzer = none)
    (hinfo : env.getAnalyzerInfo = .ok analyzerInfo)
    (hnodejs : strings.EqualFold policyPack.Runtime.Name "nodejs" = false)
    (hpython : strings.EqualFold policyPack.Runtime.Name "python" = false) :
    PolicyPack.Publish env id op log =
      (.ret (some (.errorf
          ("failed to publish policies because PulumiPolicy.yaml specifies an " ++
            "unsupported runtime " ++ policyPack.Runtime.Name))),
        { id with Name := analyzerInfo.Name, VersionTag := analyzerInfo.Version },
        log ++ [.policyAnalyzer abs plugCtx.Pwd, .getAnalyzerInfo]) := by
  simp [PolicyPack.Publish, hctx, hpack, habs, hanalyzer, hinfo, hnodejs, hpython]

end cli

namespace pulumi

theorem equalFold_python_not_nodejs (name : String)
    (h : strings.EqualFold name "python" = true) : strings.EqualFold name "nodejs" = false := by
  simp only [strings.EqualFold, beq_iff_eq] at h
  simp only [strings.EqualFold, h, beq_eq_false_iff_ne]
  decide

theorem loadAndBootstrap_other (env : Env) (finalDir : Path) (proj : PolicyPackProject)
    (hload : env.loadPolicyPack = .ok proj)
    (hnodejs : strings.EqualFold proj.Runtime.Name "nodejs" = false)
    (hpython : strings.EqualFold proj.Runtime.Name "python" = false) (w : World) :
    loadAndBootstrap env finalDir w =
      (none, w.call (.loadPolicyPack (filepath.Join finalDir "PulumiPolicy.yaml"))) := by
  simp [loadAndBootstrap, workspace.LoadPolicyPack, hload, hnodejs, hpython]

theorem bootstrap_calls_spec (env : Env) (finalDir : Path) (proj : PolicyPackProject)
    (hload : env.loadPolicyPack = .ok proj) :
    ∃ calls, (loadAndBootstrap env finalDir emptyWorld).2.log =
        .loadPolicyPack (filepath.Join finalDir "PulumiPolicy.yaml") :: calls ∧
      (∀ dir, Call.npmInstall dir ∈ calls ↔
        (dir = finalDir ∧ strings.EqualFold proj.Runtime.Name "nodejs" = true)) ∧
      (∀ dir venvDir, Call.pythonInstallDependencies dir venvDir ∈ calls ↔
        (dir = finalDir ∧ venvDir = "venv" ∧
          strings.EqualFold proj.Runtime.Name "python" = true)) ∧
      (strings.EqualFold proj.Runtime.Name "nodejs" = false →
        strings.EqualFold proj.Runtime.Name "python" = false → calls = []) := by
  unfold loadAndBootstrap completeNodeJSInstall completePythonInstall
  simp only [workspace.LoadPolicyPack, npm.Install, python.InstallDependencies,
    workspace.PolicyPackProject.Save, World.call, hload]
  by_cases hn : strings.EqualFold proj.Runtime.Name "nodejs" = true
  · have hp : strings.EqualFold proj.Runtime.Name "python" = false := by
      cases hp : strings.EqualFold proj.Runtime.Name "python" with
      | false => rfl
      | true => rw [equalFold_python_not_nodejs _ hp] at hn; cases hn
    rcases env.npmInstall with ⟨bin, _ | e⟩ <;>
      exact ⟨[.npmInstall finalDir], by simp [hn, emptyWorld], by simp [hn, eq_comm],
        by simp [hp], by simp [hn]⟩
  · simp only [Bool.not_eq_true] at hn
    by_cases hp : strings.EqualFold proj.Runtime.Name "python" = true
    · cases env.pythonInstallDependencies with
      | some e =>
        exact ⟨[.pythonInstallDependencies finalDir "venv"], by simp [hn, hp, emptyWorld],
          by simp [hn], by simp [hp, eq_comm], by simp [hp]⟩
      | none =>
        cases env.save <;>
        exact ⟨[.pythonInstallDependencies finalDir "venv",
            .save (filepath.Join finalDir "PulumiPolicy.yaml")
              { proj with Runtime := proj.Runtime.SetOption "virtualenv" "venv" }],
          by simp [hn, hp, emptyWorld],
          by simp [hn], by simp [hp, eq_comm], by simp [hp]⟩
    · simp only [Bool.not_eq_true] at hp
      exact ⟨[], by simp [hn, hp, emptyWorld], by simp [hn], by simp [hp], by simp⟩

/-- C6: when every step before the rename succeeds, the package is placed (the rename
succeeds, or fails with an already-exists error) and the manifest loads, the calls of
`installRequiredPolicy` after the manifest load and before the removal of the staging
directory contain the nodejs bootstrap (on the final directory) exactly when the runtime
name of the manifest equals "nodejs" ignoring case, and the python bootstrap (on the
final directory, environment "venv") exactly when it equals "python" ignoring case; for
every other runtime name there is no such call at all (no bootstrap, no save of the
manifest), the part of the function after the placement leaves the filesystem as it
found it, and nil is returned. -/
theorem installRequiredPolicy_bootstrap_dispatch (env : Env) (finalDir : Path)
    (tarball : Tarball) (w : World) (suffix : String) (proj : PolicyPackProject)
    (hstage : StagingSucceeds env finalDir suffix w)
    (hplace : env.rename = none ∨ os.IsExist env.rename = true)
    (hload : env.loadPolicyPack = .ok proj) :
    ∃ calls,
      (installRequiredPolicy env finalDir tarball w).2.log =
          w.log ++ stagingCalls finalDir suffix tarball ++
            .loadPolicyPack (filepath.Join finalDir "PulumiPolicy.yaml") :: calls ++
            [.removeAll (stagingDir finalDir suffix)] ∧
        (∀ dir, Call.npmInstall dir ∈ calls ↔
          (dir = finalDir ∧ strings.EqualFold proj.Runtime.Name "nodejs" = true)) ∧
        (∀ dir venvDir, Call.pythonInstallDependencies dir venvDir ∈ calls ↔
          (dir = finalDir ∧ venvDir = "venv" ∧
            strings.EqualFold proj.Runtime.Name "python" = true)) ∧
        (strings.EqualFold proj.Runtime.Name "nodejs" = false →
          strings.EqualFold proj.Runtime.Name "python" = false →
            calls = [] ∧ (installRequiredPolicy env finalDir tarball w).1 = none ∧
              ∀ w1, (loadAndBootstrap env finalDir w1).2.fs = w1.fs) := by
  obtain ⟨calls, hcalls, hnpm, hpy, hother⟩ := bootstrap_calls_spec env finalDir proj hload
  have hrun : (installRequiredPolicy env finalDir tarball w).1 =
        (loadAndBootstrap env finalDir emptyWorld).1 ∧
      (installRequiredPolicy env finalDir tarball w).2.log =
        w.log ++ stagingCalls finalDir suffix tarball ++
          (loadAndBootstrap env finalDir emptyWorld).2.log ++
          [.removeAll (stagingDir finalDir suffix)] := by
    rw [installRequiredPolicy_of_staging tarball hstage]
    rcases hplace with hr | hr
    · simp only [hr, os.Rename, World.call, RemoveAll_log]
      refine ⟨loadAndBootstrap_fst env finalDir _, ?_⟩
      rw [loadAndBootstrap_log]
      simp [stagedWorld, stagingCalls]
    · cases hr' : env.rename with
      | none => rw [hr'] at hr; simp [os.IsExist] at hr
      | some e =>
        rw [hr'] at hr
        simp only [os.Rename, World.call, RemoveAll_log, hr, Bool.not_true, Bool.false_eq_true,
          if_false]
        refine ⟨loadAndBootstrap_fst env finalDir _, ?_⟩
        rw [loadAndBootstrap_log]
        simp [stagedWorld, stagingCalls]
  refine ⟨calls, ?_, hnpm, hpy, ?_⟩
  · rw [hrun.2, hcalls]
  · intro hn hp
    refine ⟨hother hn hp, ?_, ?_⟩
    · rw [hrun.1, loadAndBootstrap_other env finalDir proj hload hn hp]
    · intro w1
      rw [loadAndBootstrap_other env finalDir proj hload hn hp, World.call]

theorem lookup_filter_ne (key k : String) (hk : key ≠ k) (l : List (String × String)) :
    (l.filter (fun kv => kv.1 ≠ k)).lookup key = l.lookup key := by
  induction l with
  | nil => rfl
  | cons kv l ih =>
    obtain ⟨a, b⟩ := kv
    simp only [ne_eq, decide_not] at ih ⊢
    by_cases ha : a = k
    · subst ha
      have : (key == a) = false := by simpa using hk
      simp [List.filter, List.lookup, this, ih]
    · by_cases hka : key = a
      · subst hka
        simp [List.filter, ha, List.lookup]
      · have : (key == a) = false := by simpa using hka
        simp [List.filter, ha, List.lookup, this, ih]

/-- C7: when the python dependency installation succeeds, `completePythonInstall` sets
the runtime option `virtualenv` of the manifest to "venv", leaves its name, its runtime
name and every other runtime option as they were, and saves that manifest at the
manifest path (when the save succeeds the file at the manifest path holds exactly that
manifest, nil is returned and no other path changes); when the dependency installation
fails with `err`, it returns `err`, the manifest is unchanged, no save is attempted and
the filesystem is untouched. -/
theorem completePythonInstall_spec (env : Env) (finalDir projPath : Path)
    (proj : PolicyPackProject) (w : World) :
    (env.pythonInstallDependencies = none →
      ((completePythonInstall env finalDir projPath proj w).1.2.Runtime.option? "virtualenv" =
          some "venv" ∧
        (completePythonInstall env finalDir projPath proj w).1.2.Name = proj.Name ∧
        (completePythonInstall env finalDir projPath proj w).1.2.Runtime.Name =
          proj.Runtime.Name ∧
        (∀ key, key ≠ "virtualenv" →
          (completePythonInstall env finalDir projPath proj w).1.2.Runtime.option? key =
            proj.Runtime.option? key)) ∧
      (completePythonInstall env finalDir projPath proj w).2.log =
        w.log ++ [.pythonInstallDependencies finalDir "venv",
          .save projPath (completePythonInstall env finalDir projPath proj w).1.2] ∧
      (env.save = none →
        (completePythonInstall env finalDir projPath proj w).1.1 = none ∧
        (completePythonInstall env finalDir projPath proj w).2.fs projPath =
          some (.manifest (completePythonInstall env finalDir projPath proj w).1.2) ∧
        ∀ q, q ≠ projPath →
          (completePythonInstall env finalDir projPath proj w).2.fs q = w.fs q)) ∧
    (∀ err, env.pythonInstallDependencies = some err →
      completePythonInstall env finalDir projPath proj w =
        ((some err, proj),
          { fs := w.fs, log := w.log ++ [.pythonInstallDependencies finalDir "venv"] })) := by
  constructor
  · intro hpy
    have hout : (completePythonInstall env finalDir projPath proj w).1.2 =
        { proj with Runtime := proj.Runtime.SetOption "virtualenv" "venv" } := by
      simp only [completePythonInstall, python.InstallDependencies, hpy,
        workspace.PolicyPackProject.Save, World.call]
      cases env.save <;> rfl
    refine ⟨?_, ?_, ?_⟩
    · rw [hout]
      refine ⟨?_, rfl, rfl, ?_⟩
      · simp [ProjectRuntimeInfo.option?, ProjectRuntimeInfo.SetOption, List.lookup]
      · intro key hkey
        have : (key == "virtualenv") = false := by simpa using hkey
        simp only [ProjectRuntimeInfo.option?, ProjectRuntimeInfo.SetOption, List.lookup, this]
        exact lookup_filter_ne key "virtualenv" hkey _
    · rw [hout]
      simp only [completePythonInstall, python.InstallDependencies, hpy,
        workspace.PolicyPackProject.Save, World.call]
      cases env.save <;> simp
    · intro hsave
      rw [hout]
      simp only [completePythonInstall, python.InstallDependencies, hpy,
        workspace.PolicyPackProject.Save, World.call, hsave]
      refine ⟨?_, by simp [FS.write], ?_⟩
      · first | rfl | trivial
      · intro q hq
        simp [FS.write, hq]
  · intro err hpy
    simp [completePythonInstall, python.InstallDependencies, hpy, World.call]

end pulumi

namespace cli

theorem splitChars_length (sep : Char) (l : List Char) :
    (splitChars sep l).length = l.count sep + 1 := by
  induction l with
  | nil => rfl
  | cons c cs ih =>
    by_cases h : c = sep
    · subst h
      simp [splitChars, ih]
    · have hc : (c == sep) = false := by simpa using h
      simp only [splitChars, h, if_false, List.count_cons, hc]
      cases hs : splitChars sep cs with
      | nil => rw [hs] at ih; simp at ih
      | cons part parts => rw [hs] at ih; simpa using ih

theorem splitChars_of_not_mem (sep : Char) (l : List Char) (h : sep ∉ l) :
    splitChars sep l = [l] := by
  induction l with
  | nil => rfl
  | cons c cs ih =>
    simp only [List.mem_cons, not_or] at h
    have hc : c ≠ sep := fun e => h.1 e.symm
    simp [splitChars, hc, ih h.2]

theorem splitChars_append_sep (sep : Char) (a b : List Char) (h : sep ∉ a) :
    splitChars sep (a ++ sep :: b) = a :: splitChars sep b := by
  induction a with
  | nil => simp [splitChars]
  | cons c cs ih =>
    simp only [List.mem_cons, not_or] at h
    have hc : c ≠ sep := fun e => h.1 e.symm
    simp [splitChars, hc, ih h.2]

theorem SplitSlash_length (s : String) :
    (strings.SplitSlash s).length = strings.CountSlash s + 1 := by
  simp [strings.SplitSlash, strings.CountSlash, splitChars_length]

/-- C8: `ParsePolicyPackIdentifier` fails exactly when its input does not contain
exactly one '/'; on `org/name`, where neither part contains '/', it returns the
organization `org` (the current user when `org` is empty), the name `name`, the empty
version tag and the console URL passed in; in particular "acme/secure-policies" gives
organization "acme", name "secure-policies" and version "". -/
theorem ParsePolicyPackIdentifier_spec (s currentUser consoleURL : String) :
    ((∃ err, ParsePolicyPackIdentifier s currentUser consoleURL = .error err) ↔
        strings.CountSlash s ≠ 1) ∧
      (∀ org name : String, '/' ∉ org.data → '/' ∉ name.data →
        ParsePolicyPackIdentifier (org ++ "/" ++ name) currentUser consoleURL =
          .ok { OrgName := if org = "" then currentUser else org, Name := name,
                VersionTag := "", ConsoleURL := consoleURL }) ∧
      ParsePolicyPackIdentifier "acme/secure-policies" currentUser consoleURL =
        .ok { OrgName := "acme", Name := "secure-policies", VersionTag := "",
              ConsoleURL := consoleURL } := by
  refine ⟨?_, ?_, ?_⟩
  · have hlen := SplitSlash_length s
    unfold ParsePolicyPackIdentifier
    split
    · next a b heq =>
      rw [heq] at hlen
      simp at hlen
      simp [← hlen]
    · next hne =>
      constructor
      · intro _ hcount
        rw [hcount] at hlen
        match hs : strings.SplitSlash s, hlen with
        | [a, b], _ => exact hne a b hs
      · intro _
        exact ⟨_, rfl⟩
  · intro org name horg hname
    have hsplit : strings.SplitSlash (org ++ "/" ++ name) = [org, name] := by
      have hd : (org ++ "/" ++ name).data = org.data ++ '/' :: name.data := by
        simp [String.data_append]
      simp [strings.SplitSlash, hd, splitChars_append_sep _ _ _ horg,
        splitChars_of_not_mem _ _ hname]
    simp [ParsePolicyPackIdentifier, hsplit]
  · have hsplit : strings.SplitSlash "acme/secure-policies" = ["acme", "secure-policies"] := by
      decide
    simp [ParsePolicyPackIdentifier, hsplit]

end cli

namespace pulumi

theorem replaceAllAux_initial_segment (old : List Char) :
    ∀ (fuel : Nat) (s p : List Char), '_' ∉ p → s.length < fuel →
      p <+: replaceAllAux old ['_'] fuel s → p <+: s := by
  intro fuel
  induction fuel with
  | zero => intro s p _ h; omega
  | succ fuel ih =>
    intro s p hp hlen hpre
    cases s with
    | nil => simpa [replaceAllAux] using hpre
    | cons c cs =>
      cases p with
      | nil => exact List.nil_prefix
      | cons a p' =>
        simp only [List.mem_cons, not_or] at hp
        by_cases hm : old <+: c :: cs
        · simp only [replaceAllAux, hm, if_true, List.singleton_append] at hpre
          have := (List.cons_prefix_cons.mp hpre).1
          exact absurd this.symm hp.1
        · simp only [replaceAllAux, hm, if_false] at hpre
          obtain ⟨rfl, hrest⟩ := List.cons_prefix_cons.mp hpre
          have hlen' : cs.length < fuel := by simp at hlen; omega
          exact List.cons_prefix_cons.mpr ⟨rfl, ih cs p' hp.2 hlen' hrest⟩

theorem replaceAllAux_not_infix (old : List Char) (hne : old ≠ []) (hus : '_' ∉ old) :
    ∀ (fuel : Nat) (s : List Char), s.length < fuel →
      ¬ old <:+: replaceAllAux old ['_'] fuel s := by
  intro fuel
  induction fuel with
  | zero => intro s h; omega
  | succ fuel ih =>
    intro s hlen hin
    cases s with
    | nil =>
      simp only [replaceAllAux] at hin
      exact hne (List.infix_nil.mp hin)
    | cons c cs =>
      have hlen' : cs.length < fuel := by simp at hlen; omega
      by_cases hm : old <+: c :: cs
      · simp only [replaceAllAux, hm, if_true, List.singleton_append] at hin
        rcases List.infix_cons_iff.mp hin with hpre | hin'
        · obtain ⟨a, old', rfl⟩ := List.exists_cons_of_ne_nil hne
          have := (List.cons_prefix_cons.mp hpre).1
          simp only [List.mem_cons, not_or] at hus
          exact hus.1 this.symm
        · refine ih _ ?_ hin'
          have : ((c :: cs).drop old.length).length ≤ cs.length := by
            have h1 : 0 < old.length := List.length_pos.mpr hne
            simp only [List.length_drop, List.length_cons]
            omega
          omega
      · have hstep : replaceAllAux old ['_'] (fuel + 1) (c :: cs) =
            c :: replaceAllAux old ['_'] fuel cs := by
          simp only [replaceAllAux, hm, if_false]
        rw [hstep] at hin
        rcases List.infix_cons_iff.mp hin with hpre | hin'
        · rw [← hstep] at hpre
          exact hm (replaceAllAux_initial_segment old (fuel + 1) (c :: cs) old hus hlen hpre)
        · exact ih cs hlen' hin'

theorem Replace_not_contains (s old : String) (hne : old ≠ "") (hus : '_' ∉ old.data) :
    ¬ strings.Contains (strings.Replace s old "_") old := by
  have hdata : old.data ≠ [] := by
    intro h
    apply hne
    cases old
    simp_all
  have hold : old ≠ "_" := by
    rintro rfl
    exact hus (by decide)
  simp only [strings.Contains, strings.Replace, hold, if_false, hdata]
  exact replaceAllAux_not_infix old.data hdata hus _ _ (Nat.lt_succ_self _)

theorem loadAndBootstrap_no_lookup (env : Env) (finalDir : Path) (orgName name version : String) :
    Call.getPolicyPath orgName name version ∉ (loadAndBootstrap env finalDir emptyWorld).2.log := by
  unfold loadAndBootstrap completeNodeJSInstall completePythonInstall
  simp only [workspace.LoadPolicyPack, npm.Install, python.InstallDependencies,
    workspace.PolicyPackProject.Save, World.call]
  cases env.loadPolicyPack with
  | error e => simp [emptyWorld]
  | ok proj =>
    rcases env.npmInstall with ⟨bin, _ | e⟩ <;> cases env.pythonInstallDependencies <;>
      cases env.save <;> simp only [] <;> split_ifs <;> simp [emptyWorld]

theorem unpackAndPlace_log (env : Env) (tempDir tempPackageDir finalDir : Path)
    (tarball : Tarball) (w : World) :
    ∃ calls, (unpackAndPlace env tempDir tempPackageDir finalDir tarball w).2.log =
        w.log ++ calls ∧
      ∀ orgName name version, Call.getPolicyPath orgName name version ∉ calls := by
  unfold unpackAndPlace
  simp only [archive.UnTGZ, World.call, os.Rename]
  cases env.unTGZ with
  | some ne => exact ⟨[.unTGZ tarball tempDir], by simp, by simp⟩
  | none =>
    have hlab : ∀ w1 : World, w1.log = w.log ++ [.unTGZ tarball tempDir,
          .rename tempPackageDir finalDir] →
        ∃ calls, (loadAndBootstrap env finalDir w1).2.log = w.log ++ calls ∧
          ∀ orgName name version, Call.getPolicyPath orgName name version ∉ calls := by
      intro w1 hw1
      refine ⟨[.unTGZ tarball tempDir, .rename tempPackageDir finalDir] ++
        (loadAndBootstrap env finalDir emptyWorld).2.log, ?_, ?_⟩
      · rw [loadAndBootstrap_log, hw1, List.append_assoc]
      · intro o n v
        simp [loadAndBootstrap_no_lookup]
    cases env.rename with
    | none => exact hlab _ (by simp)
    | some e =>
      simp only []
      split_ifs
      · exact ⟨[.unTGZ tarball tempDir, .rename tempPackageDir finalDir], by simp, by simp⟩
      · exact hlab _ (by simp)

theorem installRequiredPolicy_log (env : Env) (finalDir : Path) (tarball : Tarball) (w : World) :
    ∃ calls, (installRequiredPolicy env finalDir tarball w).2.log = w.log ++ calls ∧
      ∀ orgName name version, Call.getPolicyPath orgName name version ∉ calls := by
  unfold installRequiredPolicy
  simp only [os.MkdirAll, World.call, ioutil.TempDir]
  cases env.mkdirAllRoot with
  | some ke => exact ⟨[.mkdirAll (filepath.Dir finalDir)], by simp, by simp⟩
  | none =>
    cases env.tempDir with
    | error e => exact ⟨[.mkdirAll (filepath.Dir finalDir),
        .tempDir (filepath.Dir finalDir) (filepath.Base finalDir ++ ".tmp")], by simp, by simp⟩
    | ok suffix =>
      simp only []
      split_ifs
      · cases env.mkdirAllPackage with
        | some ke => exact ⟨[.mkdirAll (filepath.Dir finalDir),
          .tempDir (filepath.Dir finalDir) (filepath.Base finalDir ++ ".tmp"),
          .mkdirAll (filepath.Join (filepath.Join (filepath.Dir finalDir)
            (filepath.Base finalDir ++ ".tmp" ++ suffix)) packageDir)], by simp, by simp⟩
        | none =>
          simp only [RemoveAll_log]
          obtain ⟨calls, hcalls, hno⟩ := unpackAndPlace_log env
            (filepath.Join (filepath.Dir finalDir) (filepath.Base finalDir ++ ".tmp" ++ suffix))
            (filepath.Join (filepath.Join (filepath.Dir finalDir)
              (filepath.Base finalDir ++ ".tmp" ++ suffix)) packageDir) finalDir tarball
            { fs := FS.mkdirAll (filepath.Join (filepath.Join (filepath.Dir finalDir)
                  (filepath.Base finalDir ++ ".tmp" ++ suffix)) packageDir)
                (FS.mkdir (filepath.Join (filepath.Dir finalDir)
                  (filepath.Base finalDir ++ ".tmp" ++ suffix))
                  (FS.mkdirAll (filepath.Dir finalDir) w.fs)),
              log := w.log ++ [.mkdirAll (filepath.Dir finalDir)] ++
                [.tempDir (filepath.Dir finalDir) (filepath.Base finalDir ++ ".tmp")] ++
                [.mkdirAll (filepath.Join (filepath.Join (filepath.Dir finalDir)
                  (filepath.Base finalDir ++ ".tmp" ++ suffix)) packageDir)] }
          refine ⟨[.mkdirAll (filepath.Dir finalDir),
            .tempDir (filepath.Dir finalDir) (filepath.Base finalDir ++ ".tmp"),
            .mkdirAll (filepath.Join (filepath.Join (filepath.Dir finalDir)
              (filepath.Base finalDir ++ ".tmp" ++ suffix)) packageDir)] ++ calls ++
            [.removeAll (filepath.Join (filepath.Dir finalDir)
              (filepath.Base finalDir ++ ".tmp" ++ suffix))], ?_, ?_⟩
          · rw [hcalls]; simp
          · intro o n v
            simp [hno]
      · exact ⟨[.mkdirAll (filepath.Dir finalDir),
        .tempDir (filepath.Dir finalDir) (filepath.Base finalDir ++ ".tmp")], by simp, by simp⟩

/-- C9: the first external call of `Install` is the lookup of the install path for the
organization name, the policy name with every occurrence of the qualified-name
delimiter replaced by "_", and the version (the version tag when it is non-empty, else
the decimal rendering of the numeric version), and it is the only lookup of the call;
when the delimiter is non-empty and free of '_', the normalized name does not contain
it; and a policy with the same organization, name, version tag and numeric version
requests the same path. -/
theorem Install_requests_path (env : Env) (rp : RequiredPolicy) (w : World) :
    (∃ rest,
      (RequiredPolicy.Install env rp w).2.log =
          w.log ++ .getPolicyPath rp.OrgName (strings.Replace rp.Name env.QNameDelimiter "_")
            (if rp.VersionTag = "" then strconv.Itoa rp.Version else rp.VersionTag) :: rest ∧
        ∀ orgName name version, Call.getPolicyPath orgName name version ∉ rest) ∧
      (env.QNameDelimiter ≠ "" → '_' ∉ env.QNameDelimiter.data →
        ¬ strings.Contains (strings.Replace rp.Name env.QNameDelimiter "_")
          env.QNameDelimiter) ∧
      (∀ (rp2 : RequiredPolicy) (w2 : World), rp2.OrgName = rp.OrgName → rp2.Name = rp.Name →
        rp2.VersionTag = rp.VersionTag → rp2.Version = rp.Version →
        ∃ rest2, (RequiredPolicy.Install env rp2 w2).2.log =
          w2.log ++ .getPolicyPath rp.OrgName (strings.Replace rp.Name env.QNameDelimiter "_")
            (if rp.VersionTag = "" then strconv.Itoa rp.Version else rp.VersionTag) :: rest2) := by
  have key : ∀ (rp : RequiredPolicy) (w : World), ∃ rest,
      (RequiredPolicy.Install env rp w).2.log =
          w.log ++ .getPolicyPath rp.OrgName (strings.Replace rp.Name env.QNameDelimiter "_")
            (if rp.VersionTag = "" then strconv.Itoa rp.Version else rp.VersionTag) :: rest ∧
        ∀ orgName name version, Call.getPolicyPath orgName name version ∉ rest := by
    intro rp w
    unfold RequiredPolicy.Install
    simp only [workspace.GetPolicyPath, World.call, client.DownloadPolicyPack]
    cases env.getPolicyPath with
    | some e => exact ⟨[], by simp, by simp⟩
    | none =>
      simp only []
      cases (w.fs (env.policyPath rp.OrgName (strings.Replace rp.Name env.QNameDelimiter "_")
        (if rp.VersionTag = "" then strconv.Itoa rp.Version else rp.VersionTag))).isSome with
      | true => exact ⟨[], by simp, by simp⟩
      | false =>
        simp only []
        cases env.downloadPolicyPack with
        | error e => exact ⟨[.downloadPolicyPack rp.PackLocation], by simp, by simp⟩
        | ok tb =>
          simp only []
          obtain ⟨calls, hcalls, hno⟩ := installRequiredPolicy_log env
            (env.policyPath rp.OrgName (strings.Replace rp.Name env.QNameDelimiter "_")
              (if rp.VersionTag = "" then strconv.Itoa rp.Version else rp.VersionTag)) tb
            { fs := w.fs,
              log := w.log ++ [.getPolicyPath rp.OrgName
                (strings.Replace rp.Name env.QNameDelimiter "_")
                (if rp.VersionTag = "" then strconv.Itoa rp.Version else rp.VersionTag)] ++
                [.downloadPolicyPack rp.PackLocation] }
          refine ⟨.downloadPolicyPack rp.PackLocation :: calls, ?_, ?_⟩
          · rw [hcalls]; simp
          · intro o n v; simp [hno]
  refine ⟨key rp w, fun hne hus => Replace_not_contains _ _ hne hus, ?_⟩
  intro rp2 w2 horg hname htag hver
  obtain ⟨rest2, h2, _⟩ := key rp2 w2
  refine ⟨rest2, ?_⟩
  rw [h2, horg, hname, htag, hver]

end pulumi

namespace cli

theorem Validate_of_nil_version_tag (pack : PolicyPack) (op : PolicyPackOperation)
    (log : List Call) (h : op.VersionTag = none) :
    PolicyPack.Validate pack op log = (nilDereference, log) := by
  simp [PolicyPack.Validate, h]

theorem Enable_Disable_Remove_of_nil_version_tag (pack : PolicyPack) (policyGroup : String)
    (op : PolicyPackOperation) (log : List Call) (h : op.VersionTag = none) :
    PolicyPack.Enable pack policyGroup op log =
        (.ret (pack.cl.EnablePolicyPack pack.id.OrgName policyGroup pack.id.Name "" op.Config),
          log ++ [.enablePolicyPack pack.id.OrgName policyGroup pack.id.Name "" op.Config]) ∧
      PolicyPack.Disable pack policyGroup op log =
        (.ret (pack.cl.DisablePolicyPack pack.id.OrgName policyGroup pack.id.Name ""),
          log ++ [.disablePolicyPack pack.id.OrgName policyGroup pack.id.Name ""]) ∧
      PolicyPack.Remove pack op log =
        (.ret (pack.cl.DeletePolicyPack pack.id.OrgName pack.id.Name ""),
          log ++ [.deletePolicyPack pack.id.OrgName pack.id.Name ""]) := by
  simp [PolicyPack.Enable, PolicyPack.Disable, PolicyPack.Remove, h]

/-- C10: on an operation whose `VersionTag` is nil, `Validate` dereferences the nil
pointer and panics before any request reaches the policy client, whereas `Enable`,
`Disable` and `Remove` on the same operation return and pass the empty version tag to
the client. -/
theorem Validate_nil_version_tag_panics :
    PolicyPack.Validate samplePack latestOperation [] = (nilDereference, []) ∧
      PolicyPack.Enable samplePack "production" latestOperation [] =
        (.ret none, [.enablePolicyPack "acme" "production" "secure-policies" "" []]) ∧
      PolicyPack.Disable samplePack "production" latestOperation [] =
        (.ret none, [.disablePolicyPack "acme" "production" "secure-policies" ""]) ∧
      PolicyPack.Remove samplePack latestOperation [] =
        (.ret none, [.deletePolicyPack "acme" "secure-policies" ""]) := by
  decide

theorem Publish_unsupported_runtime_witness :
    PolicyPack.Publish samplePublishEnv samplePack.id rubyOperation [] =
      (.ret (some (.errorf
          ("failed to publish policies because PulumiPolicy.yaml specifies an " ++
            "unsupported runtime " ++ "ruby"))),
        { samplePack.id with Name := "secure-policies", VersionTag := "1.0.0" },
        [] ++ [.policyAnalyzer "/work/pack" "/work/pack", .getAnalyzerInfo]) :=
  Publish_unsupported_runtime samplePublishEnv samplePack.id rubyOperation []
    { Pwd := "/work/pack" }
    { Name := "secure-policies", Runtime := { name := "ruby", options := [] } }
    "/work/pack" { Name := "secure-policies", Version := "1.0.0" } rfl rfl rfl rfl rfl
    (by decide) (by decide)

theorem ParsePolicyPackIdentifier_spec_witness :
    ParsePolicyPackIdentifier ("acme" ++ "/" ++ "secure-policies") "me" "https://app.pulumi.com" =
      .ok { OrgName := if "acme" = "" then "me" else "acme", Name := "secure-policies",
            VersionTag := "", ConsoleURL := "https://app.pulumi.com" } :=
  (ParsePolicyPackIdentifier_spec "acme" "me" "https://app.pulumi.com").2.1
    "acme" "secure-policies" (by decide) (by decide)

end cli

namespace pulumi

theorem Install_cache_hit_witness :
    RequiredPolicy.Install sampleEnv acmePolicy installedWorld =
      ((some acmeFinalDir, none),
        { fs := installedWorld.fs,
          log := [.getPolicyPath "acme" "secure-policies" "1.0.0"] }) :=
  Install_cache_hit sampleEnv acmePolicy installedWorld rfl (by decide)

theorem installRequiredPolicy_rename_failure_witness :
    StagingSucceeds raceLostEnv acmeFinalDir "123" emptyWorld ∧
      (installRequiredPolicy raceLostEnv acmeFinalDir sampleTarball emptyWorld).1 =
        (installRequiredPolicy { raceLostEnv with rename := none } acmeFinalDir sampleTarball
          emptyWorld).1 :=
  ⟨⟨rfl, rfl, rfl, rfl, rfl⟩,
    ((installRequiredPolicy_rename_failure raceLostEnv acmeFinalDir sampleTarball emptyWorld
      "123" (.sys "file exists" true) ⟨rfl, rfl, rfl, rfl, rfl⟩ rfl).1 rfl).1⟩

theorem installRequiredPolicy_failure_before_rename_witness :
    (installRequiredPolicy noSpaceEnv acmeFinalDir sampleTarball emptyWorld).2.fs acmeFinalDir =
      none :=
  (installRequiredPolicy_failure_before_rename noSpaceEnv acmeFinalDir sampleTarball emptyWorld
    (by decide) rfl (Or.inr (Or.inr (Or.inl (by decide))))).2.1

theorem installRequiredPolicy_bootstrap_dispatch_witness :
    ∃ calls,
      (installRequiredPolicy sampleEnv acmeFinalDir sampleTarball emptyWorld).2.log =
          emptyWorld.log ++ stagingCalls acmeFinalDir "123" sampleTarball ++
            .loadPolicyPack (filepath.Join acmeFinalDir "PulumiPolicy.yaml") :: calls ++
            [.removeAll (stagingDir acmeFinalDir "123")] ∧
        (Call.pythonInstallDependencies acmeFinalDir "venv" ∈ calls ↔
          (acmeFinalDir = acmeFinalDir ∧ "venv" = "venv" ∧
            strings.EqualFold sampleManifest.Runtime.Name "python" = true)) := by
  obtain ⟨calls, h1, _, h3, _⟩ := installRequiredPolicy_bootstrap_dispatch sampleEnv
    acmeFinalDir sampleTarball emptyWorld "123" sampleManifest ⟨rfl, rfl, rfl, rfl, rfl⟩
    (Or.inl rfl) rfl
  exact ⟨calls, h1, h3 acmeFinalDir "venv"⟩

theorem completePythonInstall_spec_witness :
    (completePythonInstall sampleEnv acmeFinalDir (filepath.Join acmeFinalDir "PulumiPolicy.yaml")
        sampleManifest emptyWorld).1.2.Runtime.option? "virtualenv" = some "venv" ∧
      sampleManifest.Runtime.option? "virtualenv" = none :=
  ⟨((completePythonInstall_spec sampleEnv acmeFinalDir
      (filepath.Join acmeFinalDir "PulumiPolicy.yaml") sampleManifest emptyWorld).1 rfl).1.1,
    rfl⟩

theorem Install_requests_path_witness :
    ¬ strings.Contains (strings.Replace qualifiedPolicy.Name sampleEnv.QNameDelimiter "_")
      sampleEnv.QNameDelimiter :=
  (Install_requests_path sampleEnv qualifiedPolicy emptyWorld).2.1 (by decide) (by decide)

end pulumi

namespace pulumi

theorem staging_not_prefix_final_any (finalDir : Path) (suffix : String) :
    ¬ stagingDir finalDir suffix <+: finalDir := by
  by_cases h : finalDir = []
  · subst h
    intro hp
    have := hp.length_le
    simp [stagingDir, filepath.Join] at this
  · exact staging_not_prefix_final h suffix

theorem extract_isSome (dir : Path) (entries : List TarEntry) (fs : FS) (q : Path)
    (h : (fs q).isSome = true) : (FS.extract dir entries fs q).isSome = true := by
  induction entries generalizing fs with
  | nil => exact h
  | cons e es ih =>
    simp only [FS.extract, List.foldl_cons] at ih ⊢
    apply ih
    by_cases hq : q = dir ++ e.name
    · simp [FS.write, hq]
    · simp [FS.write, hq, h]

theorem loadAndBootstrap_isSome (env : Env) (finalDir : Path) (w : World) (q : Path)
    (h : (w.fs q).isSome = true) : ((loadAndBootstrap env finalDir w).2.fs q).isSome = true := by
  unfold loadAndBootstrap completeNodeJSInstall completePythonInstall
  simp only [workspace.LoadPolicyPack, npm.Install, python.InstallDependencies,
    workspace.PolicyPackProject.Save, World.call]
  cases env.loadPolicyPack with
  | error e => exact h
  | ok proj =>
    rcases env.npmInstall with ⟨bin, _ | e⟩ <;> cases env.pythonInstallDependencies <;>
      cases env.save <;> simp only [] <;> split_ifs <;>
      first
        | exact h
        | (simp only [FS.write]; split_ifs <;> first | rfl | exact h)

/-- Once every step before the rename has succeeded and the rename succeeds, the final
directory exists when `installRequiredPolicy` returns, whatever the outcome of the
manifest load, of the bootstrap and of the removal of the staging directory. -/
theorem installRequiredPolicy_places_final (env : Env) (finalDir : Path) (tarball : Tarball)
    (w : World) (suffix : String) (hstage : StagingSucceeds env finalDir suffix w)
    (hrename : env.rename = none) :
    ((installRequiredPolicy env finalDir tarball w).2.fs finalDir).isSome = true := by
  rw [installRequiredPolicy_of_staging tarball hstage]
  simp only [hrename, os.Rename, World.call]
  have hplaced : ((FS.rename (filepath.Join (stagingDir finalDir suffix) packageDir) finalDir
      (stagedWorld finalDir suffix tarball w).fs) finalDir).isSome = true := by
    simp only [FS.rename, List.prefix_refl, if_true, List.drop_length, List.append_nil,
      stagedWorld]
    apply extract_isSome
    simp only [FS.mkdirAll, List.prefix_refl, true_and]
    split_ifs with h0
    · rfl
    · cases hv : FS.mkdir (stagingDir finalDir suffix) (FS.mkdirAll (filepath.Dir finalDir) w.fs)
        (filepath.Join (stagingDir finalDir suffix) packageDir) with
      | none => exact absurd hv h0
      | some v => rfl
  have hlab := loadAndBootstrap_isSome env finalDir
    { fs := FS.rename (filepath.Join (stagingDir finalDir suffix) packageDir) finalDir
        (stagedWorld finalDir suffix tarball w).fs,
      log := (stagedWorld finalDir suffix tarball w).log ++
        [.rename (filepath.Join (stagingDir finalDir suffix) packageDir) finalDir] }
    finalDir hplaced
  cases env.removeAll with
  | some e => simpa [os.RemoveAll, World.call] using hlab
  | none =>
    simp only [os.RemoveAll, World.call, FS.removeAll,
      staging_not_prefix_final_any finalDir suffix, if_false]
    exact hlab

/-- Two sequential `Install` calls of the same policy: when the first finds the path
absent, downloads, stages and renames successfully, the second returns the same path
with a nil error and makes no call but the path lookup. -/
theorem Install_twice (env : Env) (rp : RequiredPolicy) (w : World) (suffix : String)
    (tarball : Tarball) (hget : env.getPolicyPath = none)
    (habsent : w.fs (env.policyPath rp.OrgName
      (strings.Replace rp.Name env.QNameDelimiter "_")
      (if rp.VersionTag = "" then strconv.Itoa rp.Version else rp.VersionTag)) = none)
    (hdownload : env.downloadPolicyPack = .ok tarball)
    (hstage : StagingSucceeds env (env.policyPath rp.OrgName
      (strings.Replace rp.Name env.QNameDelimiter "_")
      (if rp.VersionTag = "" then strconv.Itoa rp.Version else rp.VersionTag)) suffix w)
    (hrename : env.rename = none) :
    (RequiredPolicy.Install env rp w).1.1 = some (env.policyPath rp.OrgName
        (strings.Replace rp.Name env.QNameDelimiter "_")
        (if rp.VersionTag = "" then strconv.Itoa rp.Version else rp.VersionTag)) ∧
      RequiredPolicy.Install env rp (RequiredPolicy.Install env rp w).2 =
        (((RequiredPolicy.Install env rp w).1.1, none),
          { fs := (RequiredPolicy.Install env rp w).2.fs,
            log := (RequiredPolicy.Install env rp w).2.log ++ [.getPolicyPath rp.OrgName
              (strings.Replace rp.Name env.QNameDelimiter "_")
              (if rp.VersionTag = "" then strconv.Itoa rp.Version else rp.VersionTag)] }) := by
  have hfirst : RequiredPolicy.Install env rp w =
      ((some (env.policyPath rp.OrgName (strings.Replace rp.Name env.QNameDelimiter "_")
          (if rp.VersionTag = "" then strconv.Itoa rp.Version else rp.VersionTag)),
        (installRequiredPolicy env (env.policyPath rp.OrgName
          (strings.Replace rp.Name env.QNameDelimiter "_")
          (if rp.VersionTag = "" then strconv.Itoa rp.Version else rp.VersionTag)) tarball
          { fs := w.fs, log := w.log ++ [.getPolicyPath rp.OrgName
              (strings.Replace rp.Name env.QNameDelimiter "_")
              (if rp.VersionTag = "" then strconv.Itoa rp.Version else rp.VersionTag)] ++
              [.downloadPolicyPack rp.PackLocation] }).1),
       (installRequiredPolicy env (env.policyPath rp.OrgName
          (strings.Replace rp.Name env.QNameDelimiter "_")
          (if rp.VersionTag = "" then strconv.Itoa rp.Version else rp.VersionTag)) tarball
          { fs := w.fs, log := w.log ++ [.getPolicyPath rp.OrgName
              (strings.Replace rp.Name env.QNameDelimiter "_")
              (if rp.VersionTag = "" then strconv.Itoa rp.Version else rp.VersionTag)] ++
              [.downloadPolicyPack rp.PackLocation] }).2) := by
    simp only [RequiredPolicy.Install, workspace.GetPolicyPath, hget, World.call, habsent,
      Option.isSome_none, client.DownloadPolicyPack, hdownload]
  refine ⟨by rw [hfirst], ?_⟩
  have hex := installRequiredPolicy_places_final env _ tarball
    { fs := w.fs, log := w.log ++ [Call.getPolicyPath rp.OrgName
        (strings.Replace rp.Name env.QNameDelimiter "_")
        (if rp.VersionTag = "" then strconv.Itoa rp.Version else rp.VersionTag)] ++
        [.downloadPolicyPack rp.PackLocation] } suffix hstage hrename
  rw [hfirst]
  simp only [RequiredPolicy.Install, workspace.GetPolicyPath, hget, World.call, hex]

end pulumi

namespace backend

theorem SplitSlash_of_not_mem (s : String) (h : '/' ∉ s.data) : strings.SplitSlash s = [s] := by
  simp [strings.SplitSlash, cli.splitChars_of_not_mem _ _ h]

theorem SplitSlash_append (a rest : String) (h : '/' ∉ a.data) :
    strings.SplitSlash (a ++ "/" ++ rest) = a :: strings.SplitSlash rest := by
  have hd : (a ++ "/" ++ rest).data = a.data ++ '/' :: rest.data := by
    simp [String.data_append]
  simp [strings.SplitSlash, hd, cli.splitChars_append_sep _ _ _ h]

/-- C11: `ParseStackIdentifier` splits its input on '/'. A one-segment input sets only
`Stack` and takes `Owner` and `Project` from the defaults; a two-segment input sets
`Owner` and `Stack` and takes `Project` from the default; a three-segment input sets
`Owner`, `Project` and `Stack` in that order and ignores both defaults; and the parser
returns an error exactly on the inputs with four or more segments (three or more '/'),
so no input with three or fewer segments is rejected. -/
theorem ParseStackIdentifier_spec (defaultOwner defaultProject : String) :
    (∀ stack : String, '/' ∉ stack.data →
      ParseStackIdentifier stack defaultOwner defaultProject =
        .ok { Owner := defaultOwner, Project := defaultProject, Stack := stack }) ∧
    (∀ owner stack : String, '/' ∉ owner.data → '/' ∉ stack.data →
      ParseStackIdentifier (owner ++ "/" ++ stack) defaultOwner defaultProject =
        .ok { Owner := owner, Project := defaultProject, Stack := stack }) ∧
    (∀ owner project stack : String, '/' ∉ owner.data → '/' ∉ project.data →
      '/' ∉ stack.data →
      ParseStackIdentifier (owner ++ "/" ++ project ++ "/" ++ stack) defaultOwner
          defaultProject =
        .ok { Owner := owner, Project := project, Stack := stack }) ∧
    (∀ s : String, (∃ err, ParseStackIdentifier s defaultOwner defaultProject = .error err) ↔
      3 ≤ strings.CountSlash s) := by
  refine ⟨?_, ?_, ?_, ?_⟩
  · intro stack h
    simp [ParseStackIdentifier, SplitSlash_of_not_mem _ h]
  · intro owner stack ho hs
    simp [ParseStackIdentifier, SplitSlash_append _ _ ho, SplitSlash_of_not_mem _ hs]
  · intro owner project stack ho hp hs
    have hassoc : owner ++ "/" ++ project ++ "/" ++ stack =
        owner ++ "/" ++ (project ++ "/" ++ stack) := by
      simp [String.append_assoc]
    rw [hassoc]
    simp [ParseStackIdentifier, SplitSlash_append _ _ ho, SplitSlash_append _ _ hp,
      SplitSlash_of_not_mem _ hs]
  · intro s
    have hlen := cli.SplitSlash_length s
    unfold ParseStackIdentifier
    split
    · next a heq => rw [heq] at hlen; simp at hlen; simp; omega
    · next a b heq => rw [heq] at hlen; simp at hlen; simp; omega
    · next a b c heq => rw [heq] at hlen; simp at hlen; simp; omega
    · next h1 h2 h3 =>
      constructor
      · intro _
        match hs : strings.SplitSlash s, hlen with
        | [], hl => simp at hl
        | [a], _ => exact absurd hs (h1 a)
        | [a, b], _ => exact absurd hs (h2 a b)
        | [a, b, c], _ => exact absurd hs (h3 a b c)
        | a :: b :: c :: d :: rest, hl => simp at hl; omega
      · intro _
        exact ⟨_, rfl⟩

theorem ParseStackIdentifier_spec_witness :
    ParseStackIdentifier ("alpha" ++ "/" ++ "beta" ++ "/" ++ "gamma") "me" "proj" =
      .ok { Owner := "alpha", Project := "beta", Stack := "gamma" } :=
  (ParseStackIdentifier_spec "me" "proj").2.2.1 "alpha" "beta" "gamma"
    (by decide) (by decide) (by decide)

end backend

namespace pulumi

/-- C12: when the first `Install` of a policy finds the path absent, downloads, stages
and renames successfully, and then fails (the manifest does not load, or the nodejs or
the python bootstrap fails), it returns an error and leaves the final directory in
place; the next `Install` of the same policy, in any environment that derives the same
path, returns that path with a nil error and makes no call but the path lookup: nothing
is downloaded and the bootstrap that failed is not run again. -/
theorem Install_after_failed_install (env env2 : Env) (rp : RequiredPolicy) (w : World)
    (suffix : String) (tarball : Tarball) (hget : env.getPolicyPath = none)
    (habsent : w.fs (env.policyPath rp.OrgName
      (strings.Replace rp.Name env.QNameDelimiter "_")
      (if rp.VersionTag = "" then strconv.Itoa rp.Version else rp.VersionTag)) = none)
    (hdownload : env.downloadPolicyPack = .ok tarball)
    (hstage : StagingSucceeds env (env.policyPath rp.OrgName
      (strings.Replace rp.Name env.QNameDelimiter "_")
      (if rp.VersionTag = "" then strconv.Itoa rp.Version else rp.VersionTag)) suffix w)
    (hrename : env.rename = none)
    (hfail : (∃ err, env.loadPolicyPack = .error err) ∨
      (∃ proj err, env.loadPolicyPack = .ok proj ∧
        strings.EqualFold proj.Runtime.Name "nodejs" = true ∧ env.npmInstall.2 = some err) ∨
      (∃ proj, env.loadPolicyPack = .ok proj ∧
        strings.EqualFold proj.Runtime.Name "python" = true ∧
        (env.pythonInstallDependencies ≠ none ∨ env.save ≠ none)))
    (hget2 : env2.getPolicyPath = none) (hpath2 : env2.policyPath = env.policyPath)
    (hdelim2 : env2.QNameDelimiter = env.QNameDelimiter) :
    (RequiredPolicy.Install env rp w).1.2 ≠ none ∧
      ((RequiredPolicy.Install env rp w).2.fs (env.policyPath rp.OrgName
        (strings.Replace rp.Name env.QNameDelimiter "_")
        (if rp.VersionTag = "" then strconv.Itoa rp.Version else rp.VersionTag))).isSome = true ∧
      RequiredPolicy.Install env2 rp (RequiredPolicy.Install env rp w).2 =
        ((some (env.policyPath rp.OrgName
            (strings.Replace rp.Name env.QNameDelimiter "_")
            (if rp.VersionTag = "" then strconv.Itoa rp.Version else rp.VersionTag)), none),
          { fs := (RequiredPolicy.Install env rp w).2.fs,
            log := (RequiredPolicy.Install env rp w).2.log ++ [.getPolicyPath rp.OrgName
              (strings.Replace rp.Name env.QNameDelimiter "_")
              (if rp.VersionTag = "" then strconv.Itoa rp.Version else rp.VersionTag)] }) := by
  have hfirst : RequiredPolicy.Install env rp w =
      ((some (env.policyPath rp.OrgName (strings.Replace rp.Name env.QNameDelimiter "_")
          (if rp.VersionTag = "" then strconv.Itoa rp.Version else rp.VersionTag)),
        (installRequiredPolicy env (env.policyPath rp.OrgName
          (strings.Replace rp.Name env.QNameDelimiter "_")
          (if rp.VersionTag = "" then strconv.Itoa rp.Version else rp.VersionTag)) tarball
          { fs := w.fs, log := w.log ++ [.getPolicyPath rp.OrgName
              (strings.Replace rp.Name env.QNameDelimiter "_")
              (if rp.VersionTag = "" then strconv.Itoa rp.Version else rp.VersionTag)] ++
              [.downloadPolicyPack rp.PackLocation] }).1),
       (installRequiredPolicy env (env.policyPath rp.OrgName
          (strings.Replace rp.Name env.QNameDelimiter "_")
          (if rp.VersionTag = "" then strconv.Itoa rp.Version else rp.VersionTag)) tarball
          { fs := w.fs, log := w.log ++ [.getPolicyPath rp.OrgName
              (strings.Replace rp.Name env.QNameDelimiter "_")
              (if rp.VersionTag = "" then strconv.Itoa rp.Version else rp.VersionTag)] ++
              [.downloadPolicyPack rp.PackLocation] }).2) := by
    simp only [RequiredPolicy.Install, workspace.GetPolicyPath, hget, World.call, habsent,
      Option.isSome_none, client.DownloadPolicyPack, hdownload]
  have hex := installRequiredPolicy_places_final env _ tarball
    { fs := w.fs, log := w.log ++ [Call.getPolicyPath rp.OrgName
        (strings.Replace rp.Name env.QNameDelimiter "_")
        (if rp.VersionTag = "" then strconv.Itoa rp.Version else rp.VersionTag)] ++
        [.downloadPolicyPack rp.PackLocation] } suffix hstage hrename
  refine ⟨?_, ?_, ?_⟩
  · rw [hfirst]
    simp only []
    have hstage2 : StagingSucceeds env (env.policyPath rp.OrgName
        (strings.Replace rp.Name env.QNameDelimiter "_")
        (if rp.VersionTag = "" then strconv.Itoa rp.Version else rp.VersionTag)) suffix
        { fs := w.fs, log := w.log ++ [Call.getPolicyPath rp.OrgName
            (strings.Replace rp.Name env.QNameDelimiter "_")
            (if rp.VersionTag = "" then strconv.Itoa rp.Version else rp.VersionTag)] ++
            [.downloadPolicyPack rp.PackLocation] } := hstage
    rw [installRequiredPolicy_of_staging tarball hstage2]
    simp only [hrename, os.Rename, World.call]
    rw [loadAndBootstrap_fst]
    unfold loadAndBootstrap completeNodeJSInstall completePythonInstall
    simp only [workspace.LoadPolicyPack, npm.Install, python.InstallDependencies,
      workspace.PolicyPackProject.Save, World.call]
    rcases hfail with ⟨err, hl⟩ | ⟨proj, err, hl, hn, hnpm⟩ | ⟨proj, hl, hp, hpy⟩
    · simp [hl]
    · rcases hnpm' : env.npmInstall with ⟨bin, r⟩
      rw [hnpm'] at hnpm
      simp only at hnpm
      subst hnpm
      simp [hl, hn]
    · have hn := equalFold_python_not_nodejs _ hp
      cases hpy1 : env.pythonInstallDependencies with
      | some e => simp [hl, hn, hp]
      | none =>
        cases hs : env.save with
        | some e => simp [hl, hn, hp]
        | none => rcases hpy with h | h <;> contradiction
  · rw [hfirst]
    exact hex
  · rw [hfirst]
    simp only [RequiredPolicy.Install, workspace.GetPolicyPath, hget2, hpath2, hdelim2,
      World.call, hex]

end pulumi

namespace pulumi

theorem Install_after_failed_install_witness :
    (RequiredPolicy.Install npmFailsEnv acmePolicy emptyWorld).1.2 ≠ none ∧
      RequiredPolicy.Install npmFailsEnv acmePolicy
          (RequiredPolicy.Install npmFailsEnv acmePolicy emptyWorld).2 =
        ((some acmeFinalDir, none),
          { fs := (RequiredPolicy.Install npmFailsEnv acmePolicy emptyWorld).2.fs,
            log := (RequiredPolicy.Install npmFailsEnv acmePolicy emptyWorld).2.log ++
              [.getPolicyPath "acme" "secure-policies" "1.0.0"] }) :=
  ⟨(Install_after_failed_install npmFailsEnv npmFailsEnv acmePolicy emptyWorld "123"
      sampleTarball rfl rfl rfl ⟨rfl, rfl, rfl, rfl, rfl⟩ rfl
      (Or.inr (Or.inl ⟨_, _, rfl, by decide, rfl⟩)) rfl rfl rfl).1,
    (Install_after_failed_install npmFailsEnv npmFailsEnv acmePolicy emptyWorld "123"
      sampleTarball rfl rfl rfl ⟨rfl, rfl, rfl, rfl, rfl⟩ rfl
      (Or.inr (Or.inl ⟨_, _, rfl, by decide, rfl⟩)) rfl rfl rfl).2.2⟩

end pulumi
